import Mathlib

set_option autoImplicit false

/-!
Verification development for the document-template filler
(`generate_monthly_report` in `src/main.py`, together with its helpers
`create_table_with_header` and `insert_title_table`).

The Python program mutates a python-docx document tree.  The embedding
models text as `List Char` and translates the operations the program
uses:

* Python `pat in s` (substring test) is `containsSub s pat`;
* Python `s.replace(pat, rep)` (all non-overlapping occurrences,
  scanned left to right) is `replaceList pat rep s`;
* python-docx `Paragraph.text` reads the concatenation of the run
  texts; assigning it clears all runs (losing run-level formatting such
  as bold) while keeping paragraph-level formatting such as alignment,
  and adds a single unformatted run;
* python-docx `_Cell.text` reads the cell paragraphs joined by a
  newline; assigning it replaces the whole cell content by one fresh
  default paragraph holding one unformatted run (cell-level properties
  such as width and shading are kept);
* `Document.paragraphs` / `Document.tables` list only the top-level
  body paragraphs / tables, not those nested in table cells.

The file system and the fallible library calls (`Document(path)` and
`doc.save(path)`) are modelled by an environment `Env`; the operation
returns an `Outcome` recording the returned value, whether the
document was opened, and the tree passed to `save` (if any).
-/

namespace CgregReport

/-- Program text (Python `str`) as a list of characters. -/
abbrev Text := List Char

/-- Prefix test: `isPrefB pat s = true` iff `pat` is a prefix of `s`. -/
def isPrefB : Text → Text → Bool
  | [], _ => true
  | _ :: _, [] => false
  | c :: p, d :: s => c == d && isPrefB p s

/-- Python substring test `pat in s`. -/
def containsSub : Text → Text → Bool
  | [], pat => pat.isEmpty
  | s@(_ :: s'), pat => isPrefB pat s || containsSub s' pat

/-- Fuelled scanner for Python `str.replace`: at each position, if the
(nonempty) pattern starts here, emit the replacement and jump past the
occurrence, otherwise keep the character.  Fuel bounds the number of
scanning steps; it is initialised with the string length, which always
suffices. -/
def replaceFuel (pat rep : Text) : Nat → Text → Text
  | _, [] => []
  | 0, s => s
  | fuel + 1, c :: s =>
    if !pat.isEmpty && isPrefB pat (c :: s) then
      rep ++ replaceFuel pat rep fuel (List.drop (pat.length - 1) s)
    else
      c :: replaceFuel pat rep fuel s

/-- Python `s.replace(pat, rep)` for a nonempty pattern. -/
def replaceList (pat rep s : Text) : Text := replaceFuel pat rep s.length s

/-- Marker `{titleActivities}`. -/
def titleM : Text := "{titleActivities}".toList
/-- Marker `{descriptionActivities}`. -/
def descM : Text := "{descriptionActivities}".toList
/-- Marker `{activities}`. -/
def activitiesM : Text := "{activities}".toList
/-- Marker `{month}`. -/
def monthM : Text := "{month}".toList
/-- Marker `{conclusions}`. -/
def conclusionsM : Text := "{conclusions}".toList
/-- Marker `{recommendations}`. -/
def recommendationsM : Text := "{recommendations}".toList

/-- All six marker strings of the template contract. -/
def sixMarkers : List Text :=
  [activitiesM, monthM, conclusionsM, recommendationsM, titleM, descM]

/-- The four plain-text markers, in the order the code tests them. -/
def textMarks : List Text := [activitiesM, monthM, conclusionsM, recommendationsM]

/-- ASCII single quote, used in the formatted messages. -/
def quoteC : Char := Char.ofNat 39

/-- Message for a missing file (`f"File "{path}" does not exist."` with
single quotes around the path). -/
def fileNotFoundMsg (path : Text) : Text :=
  "File ".toList ++ quoteC :: path ++ quoteC :: " does not exist.".toList

/-- Message for an unsupported extension. -/
def onlyDocMsg : Text := "Only DOC or DOCX files are supported.".toList

/-- Success message after saving. -/
def savedMsg (path : Text) : Text :=
  "Replaced placeholders and saved ".toList ++ quoteC :: path ++ quoteC :: ".".toList

/-- Informational message when no marker was found. -/
def noPlaceholdersMsg : Text := "No placeholders found in the document.".toList

/-- Index of the last occurrence of `c`, or `-1` (Python `str.rfind`). -/
def rfindI (c : Char) : Text → Int
  | [] => -1
  | d :: s =>
    let r := rfindI c s
    if 0 ≤ r then r + 1 else if d == c then 0 else -1

/-- Extension part of `os.path.splitext(p)` (POSIX separator `/`): the
suffix from the last dot, provided that dot lies after the last path
separator and some non-dot character precedes it in the base name. -/
def splitextExt (p : Text) : Text :=
  let sepIndex := rfindI '/' p
  let dotIndex := rfindI '.' p
  if sepIndex < dotIndex then
    let nameStart := (sepIndex + 1).toNat
    let dotN := dotIndex.toNat
    if ((p.drop nameStart).take (dotN - nameStart)).any (fun ch => ch != '.') then
      p.drop dotN
    else []
  else []

/-- Python `str.lower` (ASCII case suffices for the extension check). -/
def lowerText (s : Text) : Text := s.map Char.toLower

/-- Computation `os.path.splitext(report_filepath)[1].lower()`. -/
def extOf (p : Text) : Text := lowerText (splitextExt p)

/-- Extension `.doc`. -/
def docExt : Text := ".doc".toList
/-- Extension `.docx`. -/
def docxExt : Text := ".docx".toList

/-- A run: a text fragment with its (run-level) formatting; `bold` is
the one run property the program sets. -/
structure Run where
  text : Text
  bold : Bool
deriving DecidableEq

/-- Paragraph alignment (`WD_ALIGN_PARAGRAPH`); `none` is the default of
a freshly created paragraph. -/
inductive Align
  | none
  | left
  | center
  | justify
deriving DecidableEq

/-- A paragraph: runs plus paragraph-level formatting (alignment). -/
structure Para where
  runs : List Run
  align : Align
deriving DecidableEq

/-- python-docx `Paragraph.text` getter. -/
def Para.text (p : Para) : Text := (p.runs.map Run.text).flatten

/-- python-docx `Paragraph.text` setter: `clear()` (drops the runs,
keeps paragraph formatting) followed by `add_run(text)`. -/
def Para.setText (p : Para) (s : Text) : Para :=
  { runs := [{ text := s, bold := false }], align := p.align }

/-- A table cell: paragraphs plus cell-level width and shading. -/
structure Cell where
  paras : List Para
  width : Option Nat
  shade : Option Text
deriving DecidableEq

/-- Join texts with a newline separator. -/
def joinNL : List Text → Text
  | [] => []
  | [t] => t
  | t :: ts => t ++ '\n' :: joinNL ts

/-- python-docx `_Cell.text` getter: paragraph texts joined by `\n`. -/
def Cell.text (c : Cell) : Text := joinNL (c.paras.map Para.text)

/-- python-docx `_Cell.text` setter: clear the cell content and add one
fresh default paragraph with a single unformatted run; cell properties
(width, shading) are kept. -/
def Cell.setText (c : Cell) (s : Text) : Cell :=
  { c with paras := [{ runs := [{ text := s, bold := false }], align := Align.none }] }

/-- A table: rows of cells plus the properties the program sets. -/
structure Table where
  rows : List (List Cell)
  style : Option Text
  borders : Bool
  centered : Bool
deriving DecidableEq

/-- A top-level block of the document body. -/
inductive Block
  | para (p : Para)
  | table (t : Table)
deriving DecidableEq

/-- A document: top-level blocks plus the style-catalog names. -/
structure Doc where
  blocks : List Block
  styles : List Text
deriving DecidableEq

/-- Translation of `insert_title_table`: it inserts an empty anchor paragraph (a `w:p`
holding one `w:r` with an empty `w:t`): one run of empty text. -/
def anchorPara : Para := { runs := [{ text := [], bold := false }], align := Align.none }

/-- Name of the grid style looked up in the document style catalog. -/
def tableGridStyle : Text := "Table Grid".toList

/-- Header-cell background fill used by `set_cell_background`. -/
def headerShade : Text := "#f4f4f4".toList

/-- A header cell as produced by `create_table_with_header`: one
paragraph with one bold run, fixed width, light-gray shading. -/
def headerCell (h : Text) (w : Nat) : Cell :=
  { paras := [{ runs := [{ text := h, bold := true }], align := Align.none }],
    width := some w, shade := some headerShade }

/-- Translation of `create_table_with_header(doc, headers, widths)`: a one-row table,
centered, with the grid style when available (otherwise explicit
borders via `set_borders`), and styled header cells. -/
def create_table_with_header (styles : List Text) (headers : List Text)
    (widths : List Nat) : Table :=
  let hasGrid := decide (tableGridStyle ∈ styles)
  { rows := [List.zipWith headerCell headers widths],
    style := if hasGrid then some tableGridStyle else none,
    borders := !hasGrid,
    centered := true }

/-- A data cell as produced by `row[i].text = value` on a fresh row cell
followed by the width assignment. -/
def dataCell (s : Text) (w : Nat) : Cell :=
  { paras := [{ runs := [{ text := s, bold := false }], align := Align.none }],
    width := some w, shade := none }

/-- EMU per hundredth of an inch (`Inches(x) = x * 914400`). -/
def emuPerHundredthInch : Nat := 9144

/-- Width `Inches(hundredths / 100)` in EMU. -/
def inchesW (hundredths : Nat) : Nat := hundredths * emuPerHundredthInch

/-- An entry of `title_activities`: keys `actividad` and `mes`. -/
structure TitleRow where
  actividad : Text
  mes : Text
deriving DecidableEq

/-- An entry of `description_activities`: keys `actividad`,
`descripcion`, `verificador`. -/
structure DescRow where
  actividad : Text
  descripcion : Text
  verificador : Text
deriving DecidableEq

/-- The table generated for `{titleActivities}`: headers
`ACTIVIDADES`/`MESES`, widths 4.5in/1.5in, one data row per entry. -/
def buildTitleTable (styles : List Text) (rows : List TitleRow) : Table :=
  let t := create_table_with_header styles ["ACTIVIDADES".toList, "MESES".toList]
    [inchesW 450, inchesW 150]
  { t with rows := t.rows ++ rows.map (fun r =>
      [dataCell r.actividad (inchesW 450), dataCell r.mes (inchesW 150)]) }

/-- The table generated for `{descriptionActivities}`: three headers,
widths 2.5in/3.0in/1.5in, one data row per entry. -/
def buildDescTable (styles : List Text) (rows : List DescRow) : Table :=
  let t := create_table_with_header styles
    ["Actividad Planificada".toList, "Actividad Ejecutada".toList, "Verificador".toList]
    [inchesW 250, inchesW 300, inchesW 150]
  { t with rows := t.rows ++ rows.map (fun r =>
      [dataCell r.actividad (inchesW 250), dataCell r.descripcion (inchesW 300),
       dataCell r.verificador (inchesW 150)]) }

/-- The text arguments of `generate_monthly_report`. -/
structure Args where
  month : Text
  activities : Text
  conclusiones : Text
  recommendations : Text
  title_activities : List TitleRow
  description_activities : List DescRow
deriving DecidableEq

/-- First pass of `generate_monthly_report`: for each top-level
paragraph (iterated over the snapshot `doc.paragraphs`) whose text
contains `{titleActivities}` or `{descriptionActivities}`, the
paragraph element is removed, an empty anchor paragraph is inserted at
its index, and the generated table is moved to the next index.  The
title branch wins when both markers are present (`if`/`elif`).  The
net effect is a local replacement of the paragraph by the anchor and
the table. -/
def tableMarksPass (styles : List Text) (tr : List TitleRow) (dr : List DescRow) :
    List Block → List Block × Bool
  | [] => ([], false)
  | Block.table t :: bs =>
    let r := tableMarksPass styles tr dr bs
    (Block.table t :: r.1, r.2)
  | Block.para p :: bs =>
    let r := tableMarksPass styles tr dr bs
    if containsSub p.text titleM || containsSub p.text descM then
      if containsSub p.text titleM then
        (Block.para anchorPara :: Block.table (buildTitleTable styles tr) :: r.1, true)
      else
        (Block.para anchorPara :: Block.table (buildDescTable styles dr) :: r.1, true)
    else
      (Block.para p :: r.1, r.2)

/-- Second pass, per paragraph: the four guarded in-place text
substitutions; each guard tests the paragraph text current at that
point, and the three non-`{month}` branches set justified alignment
after substituting.  Returns the paragraph and whether the outer guard
fired (`replaced = True`). -/
def paraSubst (a : Args) (p : Para) : Para × Bool :=
  if textMarks.any (fun x => containsSub p.text x) then
    let p1 := if containsSub p.text activitiesM then
        { p.setText (replaceList activitiesM a.activities p.text) with align := Align.justify }
      else p
    let p2 := if containsSub p1.text monthM then
        p1.setText (replaceList monthM a.month p1.text)
      else p1
    let p3 := if containsSub p2.text conclusionsM then
        { p2.setText (replaceList conclusionsM a.conclusiones p2.text) with align := Align.justify }
      else p2
    let p4 := if containsSub p3.text recommendationsM then
        { p3.setText (replaceList recommendationsM a.recommendations p3.text) with align := Align.justify }
      else p3
    (p4, true)
  else (p, false)

/-- Second pass over the top-level blocks (`for para in doc.paragraphs`). -/
def paraMarksPass (a : Args) : List Block → List Block × Bool
  | [] => ([], false)
  | Block.para p :: bs =>
    let q := paraSubst a p
    let r := paraMarksPass a bs
    (Block.para q.1 :: r.1, q.2 || r.2)
  | Block.table t :: bs =>
    let r := paraMarksPass a bs
    (Block.table t :: r.1, r.2)

/-- Loop `for p in cell.paragraphs: p.alignment = WD_ALIGN_PARAGRAPH.JUSTIFY`. -/
def cellJustify (c : Cell) : Cell :=
  { c with paras := c.paras.map (fun p => { p with align := Align.justify }) }

/-- Third pass, per cell: the four guarded substitutions on the cell
text; assigning `cell.text` collapses the cell to one fresh default
paragraph, and the three non-`{month}` branches then justify every
cell paragraph. -/
def cellSubst (a : Args) (c : Cell) : Cell × Bool :=
  if textMarks.any (fun x => containsSub c.text x) then
    let c1 := if containsSub c.text activitiesM then
        cellJustify (c.setText (replaceList activitiesM a.activities c.text))
      else c
    let c2 := if containsSub c1.text monthM then
        c1.setText (replaceList monthM a.month c1.text)
      else c1
    let c3 := if containsSub c2.text conclusionsM then
        cellJustify (c2.setText (replaceList conclusionsM a.conclusiones c2.text))
      else c2
    let c4 := if containsSub c3.text recommendationsM then
        cellJustify (c3.setText (replaceList recommendationsM a.recommendations c3.text))
      else c3
    (c4, true)
  else (c, false)

/-- Third pass over the cells of one row. -/
def rowSubst (a : Args) : List Cell → List Cell × Bool
  | [] => ([], false)
  | c :: cs =>
    let q := cellSubst a c
    let r := rowSubst a cs
    (q.1 :: r.1, q.2 || r.2)

/-- Third pass over the rows of one table. -/
def rowsSubst (a : Args) : List (List Cell) → List (List Cell) × Bool
  | [] => ([], false)
  | row :: rows =>
    let q := rowSubst a row
    let r := rowsSubst a rows
    (q.1 :: r.1, q.2 || r.2)

/-- Third pass on one table (`for row in table.rows: for cell in row.cells`). -/
def tableSubst (a : Args) (t : Table) : Table × Bool :=
  let r := rowsSubst a t.rows
  ({ t with rows := r.1 }, r.2)

/-- Third pass over the top-level blocks (`for table in doc.tables`);
`doc.tables` is read after the first pass, so it includes the newly
generated tables. -/
def cellMarksPass (a : Args) : List Block → List Block × Bool
  | [] => ([], false)
  | Block.table t :: bs =>
    let q := tableSubst a t
    let r := cellMarksPass a bs
    (Block.table q.1 :: r.1, q.2 || r.2)
  | Block.para p :: bs =>
    let r := cellMarksPass a bs
    (Block.para p :: r.1, r.2)

/-- The three passes of `generate_monthly_report` on the opened
document tree, together with the final `replaced` flag. -/
def applyFill (styles : List Text) (a : Args) (blocks : List Block) :
    List Block × Bool :=
  let s1 := tableMarksPass styles a.title_activities a.description_activities blocks
  let s2 := paraMarksPass a s1.1
  let s3 := cellMarksPass a s2.1
  (s3.1, s1.2 || s2.2 || s3.2)

/-- A tool result: `{"message": ...}` or `{"error": ...}`. -/
inductive MCPResult
  | message (m : Text)
  | error (m : Text)
deriving DecidableEq

/-- Environment of one invocation: whether `os.path.isfile` holds for
the path, the outcome of `Document(path)` (the parsed tree, or the
exception message it raises), and the outcome of `doc.save(path)`
(`none` = success, `some e` = exception message). -/
structure Env where
  isFile : Bool
  openDoc : Except Text Doc
  saveErr : Option Text

/-- Observable outcome of one invocation: the returned value, whether
`Document(path)` was invoked, and the tree passed to `doc.save`
(`none` when `save` was never called, in which case the file on disk
is untouched). -/
structure Outcome where
  result : MCPResult
  opened : Bool
  saved : Option Doc
deriving DecidableEq

/-- Translation of `generate_monthly_report`: precondition checks, open, the three
marker passes, conditional save; every exception from open or save is
caught by the outer `try`/`except` and returned as an error result. -/
def generate_monthly_report (env : Env) (report_filepath : Text) (a : Args) : Outcome :=
  if env.isFile = false then
    { result := MCPResult.error (fileNotFoundMsg report_filepath),
      opened := false, saved := none }
  else if extOf report_filepath ∉ [docExt, docxExt] then
    { result := MCPResult.error onlyDocMsg, opened := false, saved := none }
  else
    match env.openDoc with
    | Except.error e => { result := MCPResult.error e, opened := true, saved := none }
    | Except.ok doc =>
      let s := applyFill doc.styles a doc.blocks
      if s.2 then
        match env.saveErr with
        | some e =>
          { result := MCPResult.error e, opened := true,
            saved := some { blocks := s.1, styles := doc.styles } }
        | none =>
          { result := MCPResult.message (savedMsg report_filepath), opened := true,
            saved := some { blocks := s.1, styles := doc.styles } }
      else
        { result := MCPResult.message noPlaceholdersMsg, opened := true, saved := none }

/-! ### Observation helpers -/

/-- Top-level paragraphs of a document (`doc.paragraphs`). -/
def docParas (d : Doc) : List Para :=
  d.blocks.filterMap (fun b => match b with
    | Block.para p => some p
    | Block.table _ => none)

/-- Top-level tables of a document (`doc.tables`). -/
def docTables (d : Doc) : List Table :=
  d.blocks.filterMap (fun b => match b with
    | Block.para _ => none
    | Block.table t => some t)

/-- All cells of the top-level tables, in document order. -/
def docCells (d : Doc) : List Cell := (((docTables d).map Table.rows).flatten).flatten

/-- Holds when `s` contains none of the six marker strings. -/
def noSixText (s : Text) : Bool := sixMarkers.all (fun m => !containsSub s m)

/-- No marker occurs in any paragraph or cell text of the block. -/
def blockNoSix : Block → Bool
  | Block.para p => noSixText p.text
  | Block.table t => t.rows.all (fun row => row.all (fun c => noSixText c.text))

/-- No marker occurs anywhere in the document. -/
def docNoSix (d : Doc) : Bool := d.blocks.all blockNoSix

/-! ### Basic lemmas about the string primitives -/

lemma isPrefB_self_append (p t : Text) : isPrefB p (p ++ t) = true := by
  induction p with
  | nil => rfl
  | cons c p ih => simp [isPrefB, ih]

lemma containsSub_of_isPrefB {p s : Text} (h : isPrefB p s = true) :
    containsSub s p = true := by
  cases s with
  | nil =>
    cases p with
    | nil => rfl
    | cons c p => simp [isPrefB] at h
  | cons c s => simp [containsSub, h]

lemma containsSub_cons {s p : Text} (c : Char) (h : containsSub s p = true) :
    containsSub (c :: s) p = true := by
  simp [containsSub, h]

lemma containsSub_append_right {s p : Text} (t : Text) (h : containsSub s p = true) :
    containsSub (t ++ s) p = true := by
  induction t with
  | nil => simpa
  | cons c t ih => simpa [List.cons_append] using containsSub_cons c ih

lemma containsSub_self_append (p t : Text) : containsSub (p ++ t) p = true :=
  containsSub_of_isPrefB (isPrefB_self_append p t)

lemma containsSub_nil_pat (s : Text) : containsSub s [] = true := by
  cases s <;> rfl

lemma isPrefB_append_ext {p s : Text} (t : Text) (h : isPrefB p s = true) :
    isPrefB p (s ++ t) = true := by
  induction p generalizing s with
  | nil => rfl
  | cons c p ih =>
    cases s with
    | nil => simp [isPrefB] at h
    | cons d s =>
      simp only [isPrefB, Bool.and_eq_true, beq_iff_eq] at h
      simp only [List.cons_append, isPrefB, Bool.and_eq_true, beq_iff_eq]
      exact ⟨h.1, ih h.2⟩

lemma containsSub_append_left {s p : Text} (t : Text) (h : containsSub s p = true) :
    containsSub (s ++ t) p = true := by
  induction s with
  | nil =>
    have hp : p = [] := by simpa [containsSub, List.isEmpty_iff] using h
    simp [hp, containsSub_nil_pat]
  | cons c s ih =>
    simp only [containsSub, Bool.or_eq_true] at h
    simp only [List.cons_append, containsSub, Bool.or_eq_true]
    rcases h with h | h
    · exact Or.inl (isPrefB_append_ext t h)
    · exact Or.inr (ih h)

lemma containsSub_refl (p : Text) : containsSub p p = true := by
  simpa using containsSub_self_append p []

lemma fileNotFoundMsg_contains (path : Text) :
    containsSub (fileNotFoundMsg path) path = true := by
  unfold fileNotFoundMsg
  apply containsSub_append_left
  apply containsSub_append_right
  exact containsSub_cons _ (containsSub_refl path)

/-! ### The passes do nothing on marker-free content -/

lemma noSixText_elim {s m : Text} (h : noSixText s = true) (hm : m ∈ sixMarkers) :
    containsSub s m = false := by
  have h2 := List.all_eq_true.mp h m hm
  simpa using h2

lemma paraSubst_noop (a : Args) (p : Para) (h : noSixText p.text = true) :
    paraSubst a p = (p, false) := by
  have h1 := noSixText_elim h (show activitiesM ∈ sixMarkers by decide)
  have h2 := noSixText_elim h (show monthM ∈ sixMarkers by decide)
  have h3 := noSixText_elim h (show conclusionsM ∈ sixMarkers by decide)
  have h4 := noSixText_elim h (show recommendationsM ∈ sixMarkers by decide)
  simp [paraSubst, textMarks, h1, h2, h3, h4]

lemma cellSubst_noop (a : Args) (c : Cell) (h : noSixText c.text = true) :
    cellSubst a c = (c, false) := by
  have h1 := noSixText_elim h (show activitiesM ∈ sixMarkers by decide)
  have h2 := noSixText_elim h (show monthM ∈ sixMarkers by decide)
  have h3 := noSixText_elim h (show conclusionsM ∈ sixMarkers by decide)
  have h4 := noSixText_elim h (show recommendationsM ∈ sixMarkers by decide)
  simp [cellSubst, textMarks, h1, h2, h3, h4]

lemma rowSubst_noop (a : Args) (cs : List Cell)
    (h : cs.all (fun c => noSixText c.text) = true) : rowSubst a cs = (cs, false) := by
  induction cs with
  | nil => rfl
  | cons c cs ih =>
    rw [List.all_cons, Bool.and_eq_true] at h
    simp [rowSubst, cellSubst_noop a c h.1, ih h.2]

lemma rowsSubst_noop (a : Args) (rows : List (List Cell))
    (h : rows.all (fun row => row.all (fun c => noSixText c.text)) = true) :
    rowsSubst a rows = (rows, false) := by
  induction rows with
  | nil => rfl
  | cons row rows ih =>
    rw [List.all_cons, Bool.and_eq_true] at h
    simp [rowsSubst, rowSubst_noop a row h.1, ih h.2]

lemma tableSubst_noop (a : Args) (t : Table)
    (h : t.rows.all (fun row => row.all (fun c => noSixText c.text)) = true) :
    tableSubst a t = (t, false) := by
  simp [tableSubst, rowsSubst_noop a t.rows h]

lemma tableMarksPass_noop (styles : List Text) (tr : List TitleRow) (dr : List DescRow)
    (bs : List Block) (h : bs.all blockNoSix = true) :
    tableMarksPass styles tr dr bs = (bs, false) := by
  induction bs with
  | nil => rfl
  | cons b bs ih =>
    rw [List.all_cons, Bool.and_eq_true] at h
    cases b with
    | table t => simp [tableMarksPass, ih h.2]
    | para p =>
      have h1 := noSixText_elim h.1 (show titleM ∈ sixMarkers by decide)
      have h2 := noSixText_elim h.1 (show descM ∈ sixMarkers by decide)
      simp [tableMarksPass, ih h.2, h1, h2]

lemma paraMarksPass_noop (a : Args) (bs : List Block) (h : bs.all blockNoSix = true) :
    paraMarksPass a bs = (bs, false) := by
  induction bs with
  | nil => rfl
  | cons b bs ih =>
    rw [List.all_cons, Bool.and_eq_true] at h
    cases b with
    | table t => simp [paraMarksPass, ih h.2]
    | para p => simp [paraMarksPass, paraSubst_noop a p h.1, ih h.2]

lemma cellMarksPass_noop (a : Args) (bs : List Block) (h : bs.all blockNoSix = true) :
    cellMarksPass a bs = (bs, false) := by
  induction bs with
  | nil => rfl
  | cons b bs ih =>
    rw [List.all_cons, Bool.and_eq_true] at h
    cases b with
    | table t => simp [cellMarksPass, tableSubst_noop a t h.1, ih h.2]
    | para p => simp [cellMarksPass, ih h.2]

lemma applyFill_noop (styles : List Text) (a : Args) (blocks : List Block)
    (h : blocks.all blockNoSix = true) : applyFill styles a blocks = (blocks, false) := by
  have e1 := tableMarksPass_noop styles a.title_activities a.description_activities blocks h
  have e2 := paraMarksPass_noop a blocks h
  have e3 := cellMarksPass_noop a blocks h
  simp [applyFill, e1, e2, e3]

/-! ### Claim C2: shape and contents of the generated tables -/

lemma headerCell_text (h : Text) (w : Nat) : (headerCell h w).text = h := by
  simp [headerCell, Cell.text, joinNL, Para.text]

lemma dataCell_text (s : Text) (w : Nat) : (dataCell s w).text = s := by
  simp [dataCell, Cell.text, joinNL, Para.text]

lemma buildTitleTable_rows (styles : List Text) (tr : List TitleRow) :
    (buildTitleTable styles tr).rows =
      [headerCell ("ACTIVIDADES".toList) (inchesW 450), headerCell ("MESES".toList) (inchesW 150)]
        :: tr.map (fun r => [dataCell r.actividad (inchesW 450), dataCell r.mes (inchesW 150)]) :=
  rfl

lemma buildDescTable_rows (styles : List Text) (dr : List DescRow) :
    (buildDescTable styles dr).rows =
      [headerCell ("Actividad Planificada".toList) (inchesW 250),
        headerCell ("Actividad Ejecutada".toList) (inchesW 300),
        headerCell ("Verificador".toList) (inchesW 150)]
        :: dr.map (fun r => [dataCell r.actividad (inchesW 250),
            dataCell r.descripcion (inchesW 300), dataCell r.verificador (inchesW 150)]) :=
  rfl

/-- C2 (confirmed).  The table generated for `{titleActivities}` has
exactly `len(titleRows) + 1` rows and 2 columns, header cells
`ACTIVIDADES` / `MESES`, and row `k+1` holds `titleRows[k]`'s
activity and month in columns 0 and 1; the table generated for
`{descriptionActivities}` has `len(descriptionRows) + 1` rows and 3
columns, with row `k+1` holding activity, description, verifier in
columns 0-2.  The last two conjuncts tie the built tables to the
marker pass of `generate_monthly_report`. -/
theorem C2_generated_table_shape (styles : List Text) (tr : List TitleRow)
    (dr : List DescRow) :
    ((buildTitleTable styles tr).rows.length = tr.length + 1
      ∧ (∀ row ∈ (buildTitleTable styles tr).rows, row.length = 2)
      ∧ (buildTitleTable styles tr).rows.map (List.map Cell.text) =
          ["ACTIVIDADES".toList, "MESES".toList] :: tr.map (fun r => [r.actividad, r.mes]))
    ∧ ((buildDescTable styles dr).rows.length = dr.length + 1
      ∧ (∀ row ∈ (buildDescTable styles dr).rows, row.length = 3)
      ∧ (buildDescTable styles dr).rows.map (List.map Cell.text) =
          ["Actividad Planificada".toList, "Actividad Ejecutada".toList,
            "Verificador".toList] :: dr.map (fun r => [r.actividad, r.descripcion, r.verificador]))
    ∧ (∀ (p : Para) (bs : List Block), containsSub p.text titleM = true →
        tableMarksPass styles tr dr (Block.para p :: bs) =
          (Block.para anchorPara :: Block.table (buildTitleTable styles tr)
            :: (tableMarksPass styles tr dr bs).1, true))
    ∧ (∀ (p : Para) (bs : List Block), containsSub p.text titleM = false →
        containsSub p.text descM = true →
        tableMarksPass styles tr dr (Block.para p :: bs) =
          (Block.para anchorPara :: Block.table (buildDescTable styles dr)
            :: (tableMarksPass styles tr dr bs).1, true)) := by
  refine ⟨⟨?_, ?_, ?_⟩, ⟨?_, ?_, ?_⟩, ?_, ?_⟩
  · simp [buildTitleTable_rows]
  · intro row hrow
    rw [buildTitleTable_rows] at hrow
    rcases List.mem_cons.mp hrow with h | h
    · simp [h]
    · rcases List.mem_map.mp h with ⟨r, _, h⟩
      simp [← h]
  · rw [buildTitleTable_rows]
    simp [headerCell_text, dataCell_text, List.map_map, Function.comp]
  · simp [buildDescTable_rows]
  · intro row hrow
    rw [buildDescTable_rows] at hrow
    rcases List.mem_cons.mp hrow with h | h
    · simp [h]
    · rcases List.mem_map.mp h with ⟨r, _, h⟩
      simp [← h]
  · rw [buildDescTable_rows]
    simp [headerCell_text, dataCell_text, List.map_map, Function.comp]
  · intro p bs h
    simp [tableMarksPass, h]
  · intro p bs h1 h2
    simp [tableMarksPass, h1, h2]

/-- Shorthand run constructor for concrete test documents. -/
def mkRun (s : Text) (b : Bool) : Run := { text := s, bold := b }

/-- Shorthand paragraph constructor for concrete test documents. -/
def mkPara (rs : List Run) (al : Align) : Para := { runs := rs, align := al }

/-- A plain cell (no width, no shading) for concrete test documents. -/
def plainCell (ps : List Para) : Cell := { paras := ps, width := none, shade := none }

/-- A plain table for concrete test documents. -/
def plainTable (rows : List (List Cell)) : Table :=
  { rows := rows, style := none, borders := false, centered := false }

/-- Paragraph used by the C2 witness: it holds the title marker. -/
def c2para : Para := mkPara [mkRun ("{titleActivities}".toList) false] Align.none

/-- Witness for C2 at a concrete input. -/
theorem C2_witness :
    tableMarksPass [] [⟨"A".toList, "B".toList⟩] [] [Block.para c2para] =
      (Block.para anchorPara
        :: Block.table (buildTitleTable [] [⟨"A".toList, "B".toList⟩])
        :: (tableMarksPass [] [⟨"A".toList, "B".toList⟩] [] []).1, true) :=
  (C2_generated_table_shape [] [⟨"A".toList, "B".toList⟩] []).2.2.1 c2para [] (by decide)

/-! ### Claim C6: no markers, no save -/

/-- C6 (confirmed).  On an existing supported document containing no
occurrence of any of the six markers, the call returns the
informational no-placeholders message (not an error) and `doc.save`
is never invoked, so the file on disk is untouched. -/
theorem C6_no_markers_no_save (env : Env) (path : Text) (a : Args) (doc : Doc)
    (h1 : env.isFile = true) (h2 : extOf path ∈ [docExt, docxExt])
    (h3 : env.openDoc = Except.ok doc) (h4 : docNoSix doc = true) :
    (generate_monthly_report env path a).result = MCPResult.message noPlaceholdersMsg ∧
    (generate_monthly_report env path a).saved = none := by
  have e := applyFill_noop doc.styles a doc.blocks (by simpa [docNoSix] using h4)
  unfold generate_monthly_report
  rw [if_neg (by simp [h1]), if_neg (by simp [h2]), h3]
  simp [e]

/-- Marker-free document for the C6 witness. -/
def c6doc : Doc :=
  { blocks := [Block.para (mkPara [mkRun ("hola".toList) false] Align.none),
      Block.table (plainTable [[plainCell [mkPara [mkRun ("mundo".toList) false] Align.none]]])],
    styles := [] }

/-- Environment for the C6 witness. -/
def c6env : Env := { isFile := true, openDoc := Except.ok c6doc, saveErr := none }

/-- Arguments shared by several witnesses. -/
def emptyArgs : Args := ⟨[], [], [], [], [], []⟩

/-- Witness for C6 at a concrete input. -/
theorem C6_witness :
    (generate_monthly_report c6env ("r.docx".toList) emptyArgs).result =
      MCPResult.message noPlaceholdersMsg ∧
    (generate_monthly_report c6env ("r.docx".toList) emptyArgs).saved = none :=
  C6_no_markers_no_save c6env ("r.docx".toList) emptyArgs c6doc rfl (by decide) rfl (by decide)

/-! ### Claim C7: exceptions are caught at the boundary -/

/-- C7 (confirmed).  An exception raised by `Document(path)` or by
`doc.save(path)` is caught by the outer `try`/`except` and returned
as an error result carrying the exception message verbatim; the
operation itself is a total function into `Outcome` and never raises. -/
theorem C7_exceptions_as_errors (env : Env) (path : Text) (a : Args) :
    (∀ e : Text, env.isFile = true → extOf path ∈ [docExt, docxExt] →
      env.openDoc = Except.error e →
      (generate_monthly_report env path a).result = MCPResult.error e)
    ∧ (∀ (doc : Doc) (e : Text), env.isFile = true → extOf path ∈ [docExt, docxExt] →
      env.openDoc = Except.ok doc → (applyFill doc.styles a doc.blocks).2 = true →
      env.saveErr = some e →
      (generate_monthly_report env path a).result = MCPResult.error e) := by
  constructor
  · intro e h1 h2 h3
    unfold generate_monthly_report
    rw [if_neg (by simp [h1]), if_neg (by simp [h2]), h3]
  · intro doc e h1 h2 h3 h4 h5
    unfold generate_monthly_report
    rw [if_neg (by simp [h1]), if_neg (by simp [h2]), h3]
    simp [h4, h5]

/-- Document with one `{month}` paragraph, used by witnesses that need
`replaced = True`. -/
def monthDoc : Doc :=
  { blocks := [Block.para (mkPara [mkRun ("{month}".toList) false] Align.none)], styles := [] }

/-- Environment whose `Document(path)` call raises. -/
def c7envOpen : Env :=
  { isFile := true, openDoc := Except.error ("open boom".toList), saveErr := none }

/-- Environment whose `doc.save(path)` call raises. -/
def c7envSave : Env :=
  { isFile := true, openDoc := Except.ok monthDoc, saveErr := some ("save boom".toList) }

/-- Witness for C7 at concrete inputs: an open failure and a save
failure both surface as error results with the exception message. -/
theorem C7_witness :
    (generate_monthly_report c7envOpen ("r.docx".toList) emptyArgs).result =
      MCPResult.error ("open boom".toList) ∧
    (generate_monthly_report c7envSave ("r.docx".toList) emptyArgs).result =
      MCPResult.error ("save boom".toList) :=
  ⟨(C7_exceptions_as_errors c7envOpen ("r.docx".toList) emptyArgs).1
      ("open boom".toList) rfl (by decide) rfl,
   (C7_exceptions_as_errors c7envSave ("r.docx".toList) emptyArgs).2
      monthDoc ("save boom".toList) rfl (by decide) rfl (by decide) rfl⟩

/-! ### Claim C8: missing file -/

/-- C8 (confirmed).  When the path does not reference an existing
file, the call returns an error result whose message contains the
path, the document is never opened, and `save` is never invoked (the
filesystem is untouched). -/
theorem C8_missing_file (env : Env) (path : Text) (a : Args) (h : env.isFile = false) :
    (generate_monthly_report env path a).result = MCPResult.error (fileNotFoundMsg path) ∧
    containsSub (fileNotFoundMsg path) path = true ∧
    (generate_monthly_report env path a).opened = false ∧
    (generate_monthly_report env path a).saved = none := by
  unfold generate_monthly_report
  rw [if_pos h]
  exact ⟨rfl, fileNotFoundMsg_contains path, rfl, rfl⟩

/-- Environment with no file at the path. -/
def c8env : Env := { isFile := false, openDoc := Except.error [], saveErr := none }

/-- Witness for C8 at a concrete input. -/
theorem C8_witness :
    (generate_monthly_report c8env ("missing.docx".toList) emptyArgs).result =
      MCPResult.error (fileNotFoundMsg ("missing.docx".toList)) ∧
    containsSub (fileNotFoundMsg ("missing.docx".toList)) ("missing.docx".toList) = true ∧
    (generate_monthly_report c8env ("missing.docx".toList) emptyArgs).opened = false ∧
    (generate_monthly_report c8env ("missing.docx".toList) emptyArgs).saved = none :=
  C8_missing_file c8env ("missing.docx".toList) emptyArgs rfl

/-! ### Claim C9: unsupported extension -/

/-- C9 (confirmed).  When the file exists but its extension,
lowercased as the code does (hence case-insensitively), is neither
`.doc` nor `.docx`, the call returns the unsupported-format error
without ever invoking `Document(path)` and without saving. -/
theorem C9_unsupported_extension (env : Env) (path : Text) (a : Args)
    (h1 : env.isFile = true) (h2 : extOf path ∉ [docExt, docxExt]) :
    (generate_monthly_report env path a).result = MCPResult.error onlyDocMsg ∧
    (generate_monthly_report env path a).opened = false ∧
    (generate_monthly_report env path a).saved = none := by
  unfold generate_monthly_report
  rw [if_neg (by simp [h1]), if_pos h2]
  exact ⟨rfl, rfl, rfl⟩

/-- Environment for the C9 witness; `openDoc` would fail, but it is
never consulted. -/
def c9env : Env :=
  { isFile := true, openDoc := Except.error ("never opened".toList), saveErr := none }

/-- Witness for C9 at a concrete input with an uppercase extension. -/
theorem C9_witness :
    (generate_monthly_report c9env ("notes.TXT".toList) emptyArgs).result =
      MCPResult.error onlyDocMsg ∧
    (generate_monthly_report c9env ("notes.TXT".toList) emptyArgs).opened = false ∧
    (generate_monthly_report c9env ("notes.TXT".toList) emptyArgs).saved = none :=
  C9_unsupported_extension c9env ("notes.TXT".toList) emptyArgs rfl (by decide)

/-! ### Claim C10: a paragraph with both table markers -/

/-- C10 (confirmed).  A paragraph containing both
`{titleActivities}` and `{descriptionActivities}` is removed and
replaced by the anchor and the title table only (`if`/`elif`): no
description table is generated for it, so its
`{descriptionActivities}` occurrence is consumed without producing
its table. -/
theorem C10_both_markers_title_only (styles : List Text) (tr : List TitleRow)
    (dr : List DescRow) (p : Para) (bs : List Block)
    (h1 : containsSub p.text titleM = true) (h2 : containsSub p.text descM = true) :
    tableMarksPass styles tr dr (Block.para p :: bs) =
      (Block.para anchorPara :: Block.table (buildTitleTable styles tr)
        :: (tableMarksPass styles tr dr bs).1, true) := by
  simp [tableMarksPass, h1]

/-- Paragraph containing both table markers, for the C10 witness. -/
def c10para : Para :=
  mkPara [mkRun ("{titleActivities} {descriptionActivities}".toList) false] Align.none

/-- Witness for C10 at a concrete input. -/
theorem C10_witness :
    tableMarksPass [] [] [] [Block.para c10para] =
      (Block.para anchorPara :: Block.table (buildTitleTable [] [])
        :: (tableMarksPass [] [] [] []).1, true) :=
  C10_both_markers_title_only [] [] [] c10para [] (by decide) (by decide)

/-! ### Counterexamples for C1, C3, C4, C5 -/

/-- C1 counterexample document: a `{month}` paragraph (so the fill
succeeds and saves) and a pre-existing table whose cell holds
`{titleActivities}`. -/
def c1doc : Doc :=
  { blocks := [Block.para (mkPara [mkRun ("{month}".toList) false] Align.left),
      Block.table (plainTable
        [[plainCell [mkPara [mkRun ("{titleActivities}".toList) false] Align.left]]])],
    styles := [] }

/-- Environment for the C1 counterexample. -/
def c1env : Env := { isFile := true, openDoc := Except.ok c1doc, saveErr := none }

/-- Arguments for the C1 counterexample. -/
def c1args : Args := ⟨"MARZO".toList, [], [], [], [], []⟩

/-- C1 counterexample.  After a successful fill (the call returns
the saved-success message), the saved document still contains the
marker `{titleActivities}` inside a table cell: occurrences of the
two table markers located inside table cells are not replaced. -/
theorem C1_counterexample :
    (generate_monthly_report c1env ("informe.docx".toList) c1args).result =
      MCPResult.message (savedMsg ("informe.docx".toList)) ∧
    ((generate_monthly_report c1env ("informe.docx".toList) c1args).saved.map
      (fun d => (docCells d).map (fun c => containsSub c.text titleM))) = some [true] := by
  decide

/-- C3 paragraph: a bold run of plain text followed by a plain run
holding `{month}`. -/
def c3para : Para :=
  mkPara [mkRun ("Hello ".toList) true, mkRun ("{month}".toList) false] Align.left

/-- C3 counterexample document: a paragraph whose first run is bold. -/
def c3doc : Doc := { blocks := [Block.para c3para], styles := [] }

/-- Environment for the C3 counterexample. -/
def c3env : Env := { isFile := true, openDoc := Except.ok c3doc, saveErr := none }

/-- Arguments for the C3 counterexample. -/
def c3args : Args := ⟨"March".toList, [], [], [], [], []⟩

/-- C3 counterexample.  The original paragraph has a bold run
(`Hello `) and a plain run (`{month}`); after the fill the saved
paragraph's non-marker text is intact but its runs are collapsed into
a single unformatted run — the run-level formatting of a
marker-containing paragraph is not preserved. -/
theorem C3_counterexample :
    (docParas c3doc).map (fun p => p.runs.map Run.bold) = [[true, false]] ∧
    ((generate_monthly_report c3env ("informe.docx".toList) c3args).saved.map
      (fun d => (docParas d).map (fun p => (p.runs.map Run.bold, p.text)))) =
      some [([false], "Hello March".toList)] := by
  decide

/-- C4 counterexample document: one paragraph holding the title marker. -/
def c4doc : Doc :=
  { blocks := [Block.para (mkPara [mkRun ("{titleActivities}".toList) false] Align.none)],
    styles := [] }

/-- Environment for the C4 counterexample. -/
def c4env : Env := { isFile := true, openDoc := Except.ok c4doc, saveErr := none }

/-- Arguments for the C4 counterexample: a title row whose month field
is the literal text `{month}`. -/
def c4args : Args :=
  ⟨"March".toList, [], [], [], [{ actividad := "A".toList, mes := "{month}".toList }], []⟩

/-- C4 counterexample.  The row value `{month}` written into the
newly generated title table does not appear literally in the saved
document: the cell pass also runs over the generated table and
substitutes it to `March`. -/
theorem C4_counterexample :
    c4args.title_activities = [{ actividad := "A".toList, mes := "{month}".toList }] ∧
    ((generate_monthly_report c4env ("informe.docx".toList) c4args).saved.map
      (fun d => (docCells d).map Cell.text)) =
      some ["ACTIVIDADES".toList, "MESES".toList, "A".toList, "March".toList] := by
  decide

/-- C5 counterexample cell: centered, containing both `{activities}`
and `{month}`. -/
def c5cell : Cell :=
  plainCell [mkPara [mkRun ("{activities} {month}".toList) false] Align.center]

/-- C5 counterexample document. -/
def c5doc : Doc :=
  { blocks := [Block.table (plainTable [[c5cell]])], styles := [] }

/-- Environment for the C5 counterexample. -/
def c5env : Env := { isFile := true, openDoc := Except.ok c5doc, saveErr := none }

/-- Arguments for the C5 counterexample. -/
def c5args : Args := ⟨"MARZO".toList, "done".toList, [], [], [], []⟩

/-- C5 counterexample.  A table cell whose text contains
`{activities}` (and `{month}`) does not end justified: the later
`{month}` branch reassigns `cell.text`, which replaces the cell's
paragraphs with a fresh default-aligned paragraph, losing the
justification applied by the `{activities}` branch. -/
theorem C5_counterexample :
    containsSub c5cell.text activitiesM = true ∧
    ((generate_monthly_report c5env ("informe.docx".toList) c5args).saved.map
      (fun d => (docCells d).map (fun c => c.paras.map Para.align))) =
      some [[Align.none]] := by
  decide

/-! ### Token decomposition of clean texts

A text is *clean* when it is a concatenation of plain non-`{`
characters and whole marker occurrences.  Because every marker starts
with `{`, contains no further `{`, and no marker is a prefix of
another, `str.replace` acts on a clean text one whole marker at a
time, which is what the exhaustive-replacement arguments below need. -/

/-- A token of a clean text: a plain non-brace character, or one whole
marker occurrence. -/
inductive Tok
  | chr (c : Char)
  | mark (m : Text)
deriving DecidableEq

/-- Text of one token. -/
def Tok.render : Tok → Text
  | Tok.chr c => [c]
  | Tok.mark m => m

/-- Text of a token list. -/
def renderToks : List Tok → Text
  | [] => []
  | t :: ts => t.render ++ renderToks ts

/-- Well-formedness of one token: plain characters are not `{`, and
marks are among the six markers. -/
def tokOk : Tok → Prop
  | Tok.chr c => c ≠ '{'
  | Tok.mark m => m ∈ sixMarkers

instance : DecidablePred tokOk := fun t =>
  match t with
  | Tok.chr c => inferInstanceAs (Decidable (c ≠ '{'))
  | Tok.mark m => inferInstanceAs (Decidable (m ∈ sixMarkers))

/-- Well-formed token list. -/
def cleanTs (ts : List Tok) : Prop := ∀ t ∈ ts, tokOk t

instance (ts : List Tok) : Decidable (cleanTs ts) := by
  unfold cleanTs
  infer_instance

/-- A text is clean when it decomposes into well-formed tokens. -/
def TextClean (s : Text) : Prop := ∃ ts, cleanTs ts ∧ renderToks ts = s

lemma renderToks_cons (t : Tok) (ts : List Tok) :
    renderToks (t :: ts) = t.render ++ renderToks ts := rfl

lemma renderToks_append (ts1 ts2 : List Tok) :
    renderToks (ts1 ++ ts2) = renderToks ts1 ++ renderToks ts2 := by
  induction ts1 with
  | nil => rfl
  | cons t ts ih => simp [renderToks, ih]

lemma renderToks_chrs (s : Text) : renderToks (s.map Tok.chr) = s := by
  induction s with
  | nil => rfl
  | cons c s ih => simp [renderToks, Tok.render, ih]

lemma cleanTs_head {t : Tok} {ts : List Tok} (h : cleanTs (t :: ts)) : tokOk t :=
  h t (by simp)

lemma cleanTs_tail {t : Tok} {ts : List Tok} (h : cleanTs (t :: ts)) : cleanTs ts :=
  fun t' ht' => h t' (by simp [ht'])

lemma textClean_of_noBrace {s : Text} (h : '{' ∉ s) : TextClean s := by
  refine ⟨s.map Tok.chr, ?_, renderToks_chrs s⟩
  intro t ht
  rcases List.mem_map.mp ht with ⟨c, hc, rfl⟩
  exact fun he => h (he ▸ hc)

/-- Marker table facts, established by computation. -/
lemma sixMarkers_headTail : ∀ m ∈ sixMarkers, m.head? = some '{' ∧ '{' ∉ m.tail := by
  decide

lemma sixMarkers_noPrefB :
    ∀ m ∈ sixMarkers, ∀ m2 ∈ sixMarkers, m ≠ m2 → isPrefB m m2 = false := by
  decide

lemma marker_shape {m : Text} (hm : m ∈ sixMarkers) : ∃ b, m = '{' :: b ∧ '{' ∉ b := by
  have h := sixMarkers_headTail m hm
  cases m with
  | nil => simp at h
  | cons c b =>
    have hc : c = '{' := by simpa using h.1
    exact ⟨b, by rw [hc], by simpa using h.2⟩

/-! ### One `str.replace` call on a clean text -/

/-- The effect of one `str.replace(pat, rep)` call on the token level:
occurrences of `pat` become plain replacement characters, everything
else is untouched. -/
def stepTok (pat rep : Text) : List Tok → List Tok
  | [] => []
  | Tok.chr c :: ts => Tok.chr c :: stepTok pat rep ts
  | Tok.mark m :: ts =>
    (if m = pat then rep.map Tok.chr else [Tok.mark m]) ++ stepTok pat rep ts

lemma prefB_append_cases {q m r : Text} (h : isPrefB q (m ++ r) = true) :
    isPrefB q m = true ∨ isPrefB m q = true := by
  induction m generalizing q with
  | nil => exact Or.inr rfl
  | cons c m ih =>
    cases q with
    | nil => exact Or.inl rfl
    | cons d q =>
      simp only [List.cons_append, isPrefB, Bool.and_eq_true, beq_iff_eq] at h
      rcases ih h.2 with h2 | h2
      · exact Or.inl (by simp [isPrefB, h.1, h2])
      · exact Or.inr (by simp [isPrefB, h.1.symm, h2])

lemma containsSub_brace_skip {b : Text} (r q : Text) (hb : '{' ∉ b)
    (hq : q.head? = some '{') : containsSub (b ++ r) q = containsSub r q := by
  induction b with
  | nil => rfl
  | cons c b ih =>
    rw [List.mem_cons, not_or] at hb
    have hpre : isPrefB q (c :: (b ++ r)) = false := by
      cases q with
      | nil => simp at hq
      | cons d q'
      =>
        have hd : d = '{' := by simpa using hq
        have : (d == c) = false := by
          rw [hd]
          exact beq_eq_false_iff_ne.mpr hb.1
        simp [isPrefB, this]
    rw [List.cons_append]
    simp only [containsSub, hpre, Bool.false_or]
    exact ih hb.2

lemma replaceFuel_fuel (pat rep : Text) :
    ∀ (f1 : Nat) (s : Text) (f2 : Nat), s.length ≤ f1 → s.length ≤ f2 →
      replaceFuel pat rep f1 s = replaceFuel pat rep f2 s := by
  intro f1
  induction f1 with
  | zero =>
    intro s f2 h1 _
    have hnil : s = [] := List.eq_nil_of_length_eq_zero (Nat.le_zero.mp h1)
    cases hnil
    cases f2 <;> rfl
  | succ f1 ih =>
    intro s f2 h1 h2
    cases s with
    | nil => cases f2 <;> rfl
    | cons c s =>
      cases f2 with
      | zero => simp at h2
      | succ f2 =>
        simp only [List.length_cons, Nat.succ_le_succ_iff] at h1 h2
        simp only [replaceFuel]
        by_cases hcond : (!pat.isEmpty && isPrefB pat (c :: s)) = true
        · rw [if_pos hcond, if_pos hcond]
          have hl1 : (List.drop (pat.length - 1) s).length ≤ f1 := by
            rw [List.length_drop]; omega
          have hl2 : (List.drop (pat.length - 1) s).length ≤ f2 := by
            rw [List.length_drop]; omega
          rw [ih _ f2 hl1 hl2]
        · rw [if_neg hcond, if_neg hcond, ih s f2 h1 h2]

lemma replaceList_cons (pat rep : Text) (c : Char) (s : Text) :
    replaceList pat rep (c :: s) =
      if !pat.isEmpty && isPrefB pat (c :: s) then
        rep ++ replaceList pat rep (List.drop (pat.length - 1) s)
      else c :: replaceList pat rep s := by
  unfold replaceList
  simp only [List.length_cons, replaceFuel]
  by_cases hcond : (!pat.isEmpty && isPrefB pat (c :: s)) = true
  · rw [if_pos hcond, if_pos hcond]
    have h1 : (List.drop (pat.length - 1) s).length ≤ s.length := by
      rw [List.length_drop]; omega
    rw [replaceFuel_fuel pat rep s.length _ _ h1 le_rfl]
  · rw [if_neg hcond, if_neg hcond]

lemma replaceList_brace_skip {pat : Text} (rep : Text) {b : Text} (r : Text)
    (hb : '{' ∉ b) (hp : pat.head? = some '{') :
    replaceList pat rep (b ++ r) = b ++ replaceList pat rep r := by
  induction b with
  | nil => rfl
  | cons c b ih =>
    rw [List.mem_cons, not_or] at hb
    have hpre : isPrefB pat (c :: (b ++ r)) = false := by
      cases pat with
      | nil => simp at hp
      | cons d q'
      =>
        have hd : d = '{' := by simpa using hp
        have : (d == c) = false := by
          rw [hd]
          exact beq_eq_false_iff_ne.mpr hb.1
        simp [isPrefB, this]
    rw [List.cons_append, replaceList_cons, if_neg (by simp [hpre])]
    rw [ih hb.2]
    rfl

/-- On a clean text, one `str.replace(pat, rep)` call with a marker
pattern is exactly the token-level step. -/
lemma replaceList_render (pat rep : Text) (hpat : pat ∈ sixMarkers) :
    ∀ ts : List Tok, cleanTs ts →
      replaceList pat rep (renderToks ts) = renderToks (stepTok pat rep ts) := by
  intro ts
  induction ts with
  | nil => intro _; rfl
  | cons t ts ih =>
    intro hc
    have hcts := cleanTs_tail hc
    obtain ⟨pb, hpb, hpbO⟩ := marker_shape hpat
    cases t with
    | chr c =>
      have hcne : c ≠ '{' := cleanTs_head hc
      have hpre : isPrefB pat (c :: renderToks ts) = false := by
        rw [hpb]
        have : ('{' == c) = false := beq_eq_false_iff_ne.mpr (Ne.symm hcne)
        simp [isPrefB, this]
      rw [renderToks_cons]
      show replaceList pat rep (c :: renderToks ts) = renderToks (stepTok pat rep (Tok.chr c :: ts))
      rw [replaceList_cons, if_neg (by simp [hpre]), ih hcts]
      rfl
    | mark m =>
      have hm : m ∈ sixMarkers := cleanTs_head hc
      by_cases hmp : m = pat
      · subst hmp
        show replaceList m rep (m ++ renderToks ts) =
          renderToks ((if m = m then rep.map Tok.chr else [Tok.mark m]) ++ stepTok m rep ts)
        rw [if_pos rfl, renderToks_append, renderToks_chrs]
        conv_lhs => rw [hpb, List.cons_append]
        rw [replaceList_cons, if_pos]
        · have hdrop : List.drop (('{' :: pb).length - 1) (pb ++ renderToks ts) =
              renderToks ts := by
            simp only [List.length_cons, Nat.add_sub_cancel]
            exact List.drop_left pb (renderToks ts)
          rw [hdrop, ← hpb, ih hcts]
        · rw [← List.cons_append, ← hpb]
          have h1 : m.isEmpty = false := by rw [hpb]; rfl
          simp [h1, isPrefB_self_append]
      · show replaceList pat rep (m ++ renderToks ts) =
          renderToks ((if m = pat then rep.map Tok.chr else [Tok.mark m]) ++ stepTok pat rep ts)
        rw [if_neg hmp, renderToks_append]
        obtain ⟨mb, hmb, hmbO⟩ := marker_shape hm
        have hpre : isPrefB pat (m ++ renderToks ts) = false := by
          cases hpf : isPrefB pat (m ++ renderToks ts) with
          | false => rfl
          | true =>
            rcases prefB_append_cases hpf with h2 | h2
            · rw [sixMarkers_noPrefB pat hpat m hm (fun he => hmp he.symm)] at h2
              exact absurd h2 (by simp)
            · rw [sixMarkers_noPrefB m hm pat hpat hmp] at h2
              exact absurd h2 (by simp)
        conv_lhs => rw [hmb, List.cons_append]
        rw [replaceList_cons, if_neg]
        · rw [replaceList_brace_skip rep (renderToks ts) hmbO (by rw [hpb]; rfl), ih hcts]
          simp [renderToks, Tok.render, hmb]
        · rw [← List.cons_append, ← hmb]
          simp [hpre]

/-- Occurrence of a marker in a clean text is exactly the presence of
its token. -/
lemma containsSub_renderToks {q : Text} (hq : q ∈ sixMarkers) :
    ∀ ts : List Tok, cleanTs ts →
      (containsSub (renderToks ts) q = true ↔ Tok.mark q ∈ ts) := by
  intro ts
  induction ts with
  | nil =>
    intro _
    obtain ⟨qb, hqb, _⟩ := marker_shape hq
    constructor
    · intro h
      rw [hqb] at h
      simp [renderToks, containsSub] at h
    · intro h
      simp at h
  | cons t ts ih =>
    intro hc
    have hcts := cleanTs_tail hc
    obtain ⟨qb, hqb, hqbO⟩ := marker_shape hq
    cases t with
    | chr c =>
      have hcne : c ≠ '{' := cleanTs_head hc
      have hpre : isPrefB q (c :: renderToks ts) = false := by
        rw [hqb]
        have : ('{' == c) = false := beq_eq_false_iff_ne.mpr (Ne.symm hcne)
        simp [isPrefB, this]
      rw [renderToks_cons]
      show (containsSub (c :: renderToks ts) q = true ↔ Tok.mark q ∈ Tok.chr c :: ts)
      simp only [containsSub, hpre, Bool.false_or, List.mem_cons]
      rw [ih hcts]
      constructor
      · exact fun h => Or.inr h
      · rintro (h | h)
        · exact absurd h (by simp)
        · exact h
    | mark m =>
      have hm : m ∈ sixMarkers := cleanTs_head hc
      obtain ⟨mb, hmb, hmbO⟩ := marker_shape hm
      rw [renderToks_cons]
      show (containsSub (m ++ renderToks ts) q = true ↔ Tok.mark q ∈ Tok.mark m :: ts)
      by_cases hqm : q = m
      · subst hqm
        constructor
        · intro _; simp
        · intro _; exact containsSub_self_append q (renderToks ts)
      · have hpre : isPrefB q (m ++ renderToks ts) = false := by
          cases hpf : isPrefB q (m ++ renderToks ts) with
          | false => rfl
          | true =>
            rcases prefB_append_cases hpf with h2 | h2
            · rw [sixMarkers_noPrefB q hq m hm hqm] at h2
              exact absurd h2 (by simp)
            · rw [sixMarkers_noPrefB m hm q hq (fun he => hqm he.symm)] at h2
              exact absurd h2 (by simp)
        have hskip : containsSub (mb ++ renderToks ts) q = containsSub (renderToks ts) q :=
          containsSub_brace_skip (renderToks ts) q hmbO (by rw [hqb]; rfl)
        conv_lhs => rw [hmb, List.cons_append]
        simp only [containsSub]
        rw [← List.cons_append, ← hmb, hpre]
        simp only [Bool.false_or, hskip]
        rw [ih hcts]
        constructor
        · exact fun h => by simp [h]
        · intro h
          rcases List.mem_cons.mp h with h | h
          · exact absurd (Tok.mark.injEq q m ▸ h) (by simp [hqm])
          · exact h

/-- Boolean form of the occurrence characterisation. -/
lemma containsSub_renderToks_decide {q : Text} (hq : q ∈ sixMarkers)
    (ts : List Tok) (hts : cleanTs ts) :
    containsSub (renderToks ts) q = decide (Tok.mark q ∈ ts) := by
  by_cases h : Tok.mark q ∈ ts
  · simp [h, (containsSub_renderToks hq ts hts).mpr h]
  · simp only [h, decide_False]
    cases hb : containsSub (renderToks ts) q with
    | false => rfl
    | true => exact absurd ((containsSub_renderToks hq ts hts).mp hb) h

lemma stepTok_id (pat rep : Text) :
    ∀ ts : List Tok, Tok.mark pat ∉ ts → stepTok pat rep ts = ts := by
  intro ts
  induction ts with
  | nil => intro _; rfl
  | cons t ts ih =>
    intro h
    rw [List.mem_cons, not_or] at h
    cases t with
    | chr c => simp [stepTok, ih h.2]
    | mark m =>
      have hne : m ≠ pat := fun he => h.1 (by rw [he])
      simp [stepTok, hne, ih h.2]

lemma stepTok_append (pat rep : Text) (ts1 ts2 : List Tok) :
    stepTok pat rep (ts1 ++ ts2) = stepTok pat rep ts1 ++ stepTok pat rep ts2 := by
  induction ts1 with
  | nil => rfl
  | cons t ts ih =>
    cases t with
    | chr c => simp [stepTok, ih]
    | mark m => simp [stepTok, ih]

lemma stepTok_chrs (pat rep : Text) (s : Text) :
    stepTok pat rep (s.map Tok.chr) = s.map Tok.chr := by
  induction s with
  | nil => rfl
  | cons c s ih => simp [stepTok, ih]

lemma stepTok_mark_iff (pat rep : Text) (m : Text) :
    ∀ ts : List Tok, (Tok.mark m ∈ stepTok pat rep ts ↔ Tok.mark m ∈ ts ∧ m ≠ pat) := by
  intro ts
  induction ts with
  | nil => simp [stepTok]
  | cons t ts ih =>
    cases t with
    | chr c => simp [stepTok, ih]
    | mark m2 =>
      have hstep : stepTok pat rep (Tok.mark m2 :: ts) =
          (if m2 = pat then rep.map Tok.chr else [Tok.mark m2]) ++ stepTok pat rep ts := rfl
      by_cases h2 : m2 = pat
      · rw [hstep, if_pos h2]
        constructor
        · intro h
          rcases List.mem_append.mp h with h | h
          · exfalso
            rcases List.mem_map.mp h with ⟨c, _, hc⟩
            exact absurd hc (by simp)
          · have h' := ih.mp h
            exact ⟨List.mem_cons_of_mem _ h'.1, h'.2⟩
        · rintro ⟨hmem, hne⟩
          rcases List.mem_cons.mp hmem with h | h
          · have hm2 : m = m2 := by simpa using h
            exact absurd (hm2.trans h2) hne
          · exact List.mem_append_right _ (ih.mpr ⟨h, hne⟩)
      · rw [hstep, if_neg h2]
        constructor
        · intro h
          rcases List.mem_append.mp h with h | h
          · have hm2 : m = m2 := by simpa using List.mem_singleton.mp h
            exact ⟨by simp [hm2], fun he => h2 (hm2.symm.trans he)⟩
          · have h' := ih.mp h
            exact ⟨List.mem_cons_of_mem _ h'.1, h'.2⟩
        · rintro ⟨hmem, hne⟩
          rcases List.mem_cons.mp hmem with h | h
          · have hm2 : m = m2 := by simpa using h
            exact List.mem_append_left _ (by simp [hm2])
          · exact List.mem_append_right _ (ih.mpr ⟨h, hne⟩)

lemma stepTok_chr_mem {pat rep : Text} {c : Char} :
    ∀ ts : List Tok, Tok.chr c ∈ stepTok pat rep ts → Tok.chr c ∈ ts ∨ c ∈ rep := by
  intro ts
  induction ts with
  | nil => intro h; simp [stepTok] at h
  | cons t ts ih =>
    intro h
    cases t with
    | chr c2 =>
      rcases List.mem_cons.mp h with h | h
      · exact Or.inl (by simp [h])
      · rcases ih h with h | h
        · exact Or.inl (by simp [h])
        · exact Or.inr h
    | mark m =>
      rcases List.mem_append.mp h with h | h
      · by_cases h2 : m = pat
        · rw [if_pos h2] at h
          rcases List.mem_map.mp h with ⟨c2, hc2, he⟩
          rw [Tok.chr.injEq] at he
          exact Or.inr (he ▸ hc2)
        · rw [if_neg h2] at h
          exact absurd (List.mem_singleton.mp h) (by simp)
      · rcases ih h with h | h
        · exact Or.inl (by simp [h])
        · exact Or.inr h

lemma stepTok_clean {pat rep : Text} (hrep : '{' ∉ rep) {ts : List Tok}
    (hts : cleanTs ts) : cleanTs (stepTok pat rep ts) := by
  intro t ht
  cases t with
  | chr c =>
    rcases stepTok_chr_mem _ ht with h | h
    · exact hts _ h
    · exact fun he => hrep (he ▸ h)
  | mark m =>
    have h := (stepTok_mark_iff pat rep m _).mp ht
    exact hts _ h.1

/-! ### The four-branch substitution chain on paragraphs -/

lemma actM_mem : activitiesM ∈ sixMarkers := by decide
lemma monM_mem : monthM ∈ sixMarkers := by decide
lemma conM_mem : conclusionsM ∈ sixMarkers := by decide
lemma recM_mem : recommendationsM ∈ sixMarkers := by decide
lemma titleM_mem : titleM ∈ sixMarkers := by decide
lemma descM_mem : descM ∈ sixMarkers := by decide

/-- The four replacement values contain no `{`: substituting them can
never create a new marker occurrence. -/
def ValsOk (a : Args) : Prop :=
  '{' ∉ a.activities ∧ '{' ∉ a.month ∧ '{' ∉ a.conclusiones ∧ '{' ∉ a.recommendations

instance (a : Args) : Decidable (ValsOk a) := by
  unfold ValsOk
  infer_instance

/-- Token-level effect of the four chained substitutions of the second
and third passes, in the order the code performs them. -/
def substToks (a : Args) (ts : List Tok) : List Tok :=
  stepTok recommendationsM a.recommendations
    (stepTok conclusionsM a.conclusiones
      (stepTok monthM a.month
        (stepTok activitiesM a.activities ts)))

lemma substToks_clean {a : Args} (hA : ValsOk a) {ts : List Tok} (hts : cleanTs ts) :
    cleanTs (substToks a ts) :=
  stepTok_clean hA.2.2.2 (stepTok_clean hA.2.2.1 (stepTok_clean hA.2.1
    (stepTok_clean hA.1 hts)))

lemma substToks_mark_iff (a : Args) (m : Text) (ts : List Tok) :
    Tok.mark m ∈ substToks a ts ↔
      Tok.mark m ∈ ts ∧ m ≠ activitiesM ∧ m ≠ monthM ∧ m ≠ conclusionsM
        ∧ m ≠ recommendationsM := by
  unfold substToks
  rw [stepTok_mark_iff, stepTok_mark_iff, stepTok_mark_iff, stepTok_mark_iff]
  tauto

/-- One guarded in-place substitution branch of the paragraph pass
(`j` tells whether the branch justifies the paragraph afterwards). -/
def branchStep (pat rep : Text) (j : Bool) (p : Para) : Para :=
  if containsSub p.text pat then
    cond j { p.setText (replaceList pat rep p.text) with align := Align.justify }
      (p.setText (replaceList pat rep p.text))
  else p

/-- Lemma: `paraSubst` is the outer guard plus the four chained branches. -/
lemma paraSubst_branches (a : Args) (p : Para) :
    paraSubst a p =
      if textMarks.any (fun x => containsSub p.text x) then
        (branchStep recommendationsM a.recommendations true
          (branchStep conclusionsM a.conclusiones true
            (branchStep monthM a.month false
              (branchStep activitiesM a.activities true p))), true)
      else (p, false) := rfl

lemma para_text_setText (p : Para) (s : Text) : (p.setText s).text = s := by
  simp [Para.setText, Para.text]

lemma branchStep_text {pat : Text} (hpat : pat ∈ sixMarkers) (rep : Text) (j : Bool)
    {p : Para} {ts : List Tok} (hts : cleanTs ts) (hs : renderToks ts = p.text) :
    (branchStep pat rep j p).text = renderToks (stepTok pat rep ts) := by
  unfold branchStep
  by_cases h : Tok.mark pat ∈ ts
  · have hc : containsSub p.text pat = true := by
      rw [← hs]; exact (containsSub_renderToks hpat ts hts).mpr h
    rw [if_pos hc]
    have he : replaceList pat rep p.text = renderToks (stepTok pat rep ts) := by
      rw [← hs]; exact replaceList_render pat rep hpat ts hts
    cases j
    · show (p.setText (replaceList pat rep p.text)).text = renderToks (stepTok pat rep ts)
      rw [para_text_setText]
      exact he
    · show ({ p.setText (replaceList pat rep p.text) with
          align := Align.justify } : Para).text = renderToks (stepTok pat rep ts)
      rw [show ({ p.setText (replaceList pat rep p.text) with
          align := Align.justify } : Para).text = (p.setText (replaceList pat rep p.text)).text
        from rfl]
      rw [para_text_setText]
      exact he
  · have hc : containsSub p.text pat = false := by
      rw [← hs, containsSub_renderToks_decide hpat ts hts]
      simp [h]
    rw [if_neg (by simp [hc]), stepTok_id pat rep ts h, hs]

lemma branchStep_align {pat : Text} (hpat : pat ∈ sixMarkers) (rep : Text) (j : Bool)
    {p : Para} {ts : List Tok} (hts : cleanTs ts) (hs : renderToks ts = p.text) :
    (branchStep pat rep j p).align =
      if Tok.mark pat ∈ ts ∧ j = true then Align.justify else p.align := by
  unfold branchStep
  by_cases h : Tok.mark pat ∈ ts
  · have hc : containsSub p.text pat = true := by
      rw [← hs]; exact (containsSub_renderToks hpat ts hts).mpr h
    rw [if_pos hc]
    cases j
    · simp [h, Para.setText]
    · simp [h]
  · have hc : containsSub p.text pat = false := by
      rw [← hs, containsSub_renderToks_decide hpat ts hts]
      simp [h]
    rw [if_neg (by simp [hc])]
    simp [h]

lemma branchStep_skip {pat : Text} (hpat : pat ∈ sixMarkers) (rep : Text) (j : Bool)
    {p : Para} {ts : List Tok} (hts : cleanTs ts) (hs : renderToks ts = p.text)
    (h : Tok.mark pat ∉ ts) : branchStep pat rep j p = p := by
  unfold branchStep
  have hc : containsSub p.text pat = false := by
    rw [← hs, containsSub_renderToks_decide hpat ts hts]
    simp [h]
  rw [if_neg (by simp [hc])]

lemma branchStep_touch {pat : Text} (hpat : pat ∈ sixMarkers) (rep : Text) (j : Bool)
    {p : Para} {ts : List Tok} (hts : cleanTs ts) (hs : renderToks ts = p.text)
    (h : Tok.mark pat ∈ ts) :
    (branchStep pat rep j p).runs =
      [{ text := (branchStep pat rep j p).text, bold := false }] := by
  unfold branchStep
  have hc : containsSub p.text pat = true := by
    rw [← hs]; exact (containsSub_renderToks hpat ts hts).mpr h
  rw [if_pos hc]
  cases j <;> simp [Para.setText, Para.text]

lemma branchStep_collapsed (pat rep : Text) (j : Bool) (p : Para)
    (h : p.runs = [{ text := p.text, bold := false }]) :
    (branchStep pat rep j p).runs =
      [{ text := (branchStep pat rep j p).text, bold := false }] := by
  unfold branchStep
  by_cases hc : containsSub p.text pat = true
  · rw [if_pos hc]
    cases j <;> simp [Para.setText, Para.text]
  · rw [if_neg hc]
    exact h

lemma para_eq_mk {q : Para} {r : List Run} {al : Align}
    (h1 : q.runs = r) (h2 : q.align = al) : q = { runs := r, align := al } := by
  cases q
  cases h1
  cases h2
  rfl

/-- Full description of the second pass on one paragraph with clean
text: the guard fires exactly when one of the four text markers
occurs; then the runs collapse to one unformatted run holding the
substituted text, and the alignment becomes justified exactly when one
of the three justifying markers occurs (a paragraph touched only by
`{month}` keeps its alignment, since assigning `Paragraph.text`
preserves paragraph-level formatting). -/
lemma paraSubst_spec (a : Args) (hA : ValsOk a) (p : Para) (ts : List Tok)
    (hts : cleanTs ts) (hs : renderToks ts = p.text) :
    paraSubst a p =
      if Tok.mark activitiesM ∈ ts ∨ Tok.mark monthM ∈ ts ∨ Tok.mark conclusionsM ∈ ts
          ∨ Tok.mark recommendationsM ∈ ts then
        ({ runs := [{ text := renderToks (substToks a ts), bold := false }],
           align := if Tok.mark activitiesM ∈ ts ∨ Tok.mark conclusionsM ∈ ts
               ∨ Tok.mark recommendationsM ∈ ts then Align.justify else p.align }, true)
      else (p, false) := by
  obtain ⟨hA1, hA2, hA3, hA4⟩ := hA
  have hc1 : cleanTs (stepTok activitiesM a.activities ts) := stepTok_clean hA1 hts
  have hc2 : cleanTs (stepTok monthM a.month (stepTok activitiesM a.activities ts)) :=
    stepTok_clean hA2 hc1
  have hc3 : cleanTs (stepTok conclusionsM a.conclusiones
      (stepTok monthM a.month (stepTok activitiesM a.activities ts))) :=
    stepTok_clean hA3 hc2
  have ht1 := branchStep_text actM_mem a.activities true hts hs
  have ht2 := branchStep_text monM_mem a.month false hc1 ht1.symm
  have ht3 := branchStep_text conM_mem a.conclusiones true hc2 ht2.symm
  have ht4 := branchStep_text recM_mem a.recommendations true hc3 ht3.symm
  have hmonT : Tok.mark monthM ∈ stepTok activitiesM a.activities ts ↔
      Tok.mark monthM ∈ ts := by
    rw [stepTok_mark_iff]
    simp [show monthM ≠ activitiesM from by decide]
  have hconT : Tok.mark conclusionsM ∈
      stepTok monthM a.month (stepTok activitiesM a.activities ts) ↔
      Tok.mark conclusionsM ∈ ts := by
    rw [stepTok_mark_iff, stepTok_mark_iff]
    simp [show conclusionsM ≠ monthM from by decide,
      show conclusionsM ≠ activitiesM from by decide]
  have hrecT : Tok.mark recommendationsM ∈ stepTok conclusionsM a.conclusiones
      (stepTok monthM a.month (stepTok activitiesM a.activities ts)) ↔
      Tok.mark recommendationsM ∈ ts := by
    rw [stepTok_mark_iff, stepTok_mark_iff, stepTok_mark_iff]
    simp [show recommendationsM ≠ conclusionsM from by decide,
      show recommendationsM ≠ monthM from by decide,
      show recommendationsM ≠ activitiesM from by decide]
  have ha1 := branchStep_align actM_mem a.activities true hts hs
  have ha2 := branchStep_align monM_mem a.month false hc1 ht1.symm
  have ha3 := branchStep_align conM_mem a.conclusiones true hc2 ht2.symm
  have ha4 := branchStep_align recM_mem a.recommendations true hc3 ht3.symm
  have halign : (branchStep recommendationsM a.recommendations true
      (branchStep conclusionsM a.conclusiones true
        (branchStep monthM a.month false
          (branchStep activitiesM a.activities true p)))).align =
      if Tok.mark activitiesM ∈ ts ∨ Tok.mark conclusionsM ∈ ts
          ∨ Tok.mark recommendationsM ∈ ts then Align.justify else p.align := by
    rw [ha4, ha3, ha2, ha1]
    by_cases h1 : Tok.mark activitiesM ∈ ts <;>
      by_cases h3 : Tok.mark conclusionsM ∈ ts <;>
        by_cases h4 : Tok.mark recommendationsM ∈ ts <;>
          simp [h1, h3, h4, hconT, hrecT]
  have hrun : (Tok.mark activitiesM ∈ ts ∨ Tok.mark monthM ∈ ts
      ∨ Tok.mark conclusionsM ∈ ts ∨ Tok.mark recommendationsM ∈ ts) →
      (branchStep recommendationsM a.recommendations true
        (branchStep conclusionsM a.conclusiones true
          (branchStep monthM a.month false
            (branchStep activitiesM a.activities true p)))).runs =
      [{ text := (branchStep recommendationsM a.recommendations true
          (branchStep conclusionsM a.conclusiones true
            (branchStep monthM a.month false
              (branchStep activitiesM a.activities true p)))).text, bold := false }] := by
    intro hg
    rcases hg with h | h | h | h
    · have e1 := branchStep_touch actM_mem a.activities true hts hs h
      exact branchStep_collapsed _ _ _ _
        (branchStep_collapsed _ _ _ _ (branchStep_collapsed _ _ _ _ e1))
    · have e2 := branchStep_touch monM_mem a.month false hc1 ht1.symm (hmonT.mpr h)
      exact branchStep_collapsed _ _ _ _ (branchStep_collapsed _ _ _ _ e2)
    · have e3 := branchStep_touch conM_mem a.conclusiones true hc2 ht2.symm (hconT.mpr h)
      exact branchStep_collapsed _ _ _ _ e3
    · exact branchStep_touch recM_mem a.recommendations true hc3 ht3.symm (hrecT.mpr h)
  have hguard : (textMarks.any (fun x => containsSub p.text x)) =
      decide (Tok.mark activitiesM ∈ ts ∨ Tok.mark monthM ∈ ts
        ∨ Tok.mark conclusionsM ∈ ts ∨ Tok.mark recommendationsM ∈ ts) := by
    have e1 : containsSub p.text activitiesM = decide (Tok.mark activitiesM ∈ ts) := by
      rw [← hs]; exact containsSub_renderToks_decide actM_mem ts hts
    have e2 : containsSub p.text monthM = decide (Tok.mark monthM ∈ ts) := by
      rw [← hs]; exact containsSub_renderToks_decide monM_mem ts hts
    have e3 : containsSub p.text conclusionsM = decide (Tok.mark conclusionsM ∈ ts) := by
      rw [← hs]; exact containsSub_renderToks_decide conM_mem ts hts
    have e4 : containsSub p.text recommendationsM =
        decide (Tok.mark recommendationsM ∈ ts) := by
      rw [← hs]; exact containsSub_renderToks_decide recM_mem ts hts
    by_cases h1 : Tok.mark activitiesM ∈ ts <;>
      by_cases h2m : Tok.mark monthM ∈ ts <;>
        by_cases h3 : Tok.mark conclusionsM ∈ ts <;>
          by_cases h4 : Tok.mark recommendationsM ∈ ts <;>
            simp [textMarks, e1, e2, e3, e4, h1, h2m, h3, h4]
  rw [paraSubst_branches]
  by_cases hg : Tok.mark activitiesM ∈ ts ∨ Tok.mark monthM ∈ ts
      ∨ Tok.mark conclusionsM ∈ ts ∨ Tok.mark recommendationsM ∈ ts
  · rw [if_pos (by rw [hguard]; simp [hg]), if_pos hg]
    refine congrArg (fun q => (q, true)) (para_eq_mk ?_ ?_)
    · rw [hrun hg, ht4]
      rfl
    · exact halign
  · rw [if_neg (by rw [hguard]; simp [hg]), if_neg hg]

/-! ### The four-branch substitution chain on cells -/

lemma stepTok_mark_ne {pat rep m : Text} (ts : List Tok) (h : m ≠ pat) :
    (Tok.mark m ∈ stepTok pat rep ts) ↔ Tok.mark m ∈ ts := by
  rw [stepTok_mark_iff]
  simp [h]

/-- One guarded substitution branch of the cell pass (`j` tells whether
the branch justifies all cell paragraphs afterwards). -/
def cellStep (pat rep : Text) (j : Bool) (c : Cell) : Cell :=
  if containsSub c.text pat then
    cond j (cellJustify (c.setText (replaceList pat rep c.text)))
      (c.setText (replaceList pat rep c.text))
  else c

/-- Lemma: `cellSubst` is the outer guard plus the four chained branches. -/
lemma cellSubst_branches (a : Args) (c : Cell) :
    cellSubst a c =
      if textMarks.any (fun x => containsSub c.text x) then
        (cellStep recommendationsM a.recommendations true
          (cellStep conclusionsM a.conclusiones true
            (cellStep monthM a.month false
              (cellStep activitiesM a.activities true c))), true)
      else (c, false) := rfl

lemma cell_text_setText (c : Cell) (s : Text) : (c.setText s).text = s := by
  simp [Cell.setText, Cell.text, joinNL, Para.text]

lemma Para.text_justify (p : Para) :
    ({ p with align := Align.justify } : Para).text = p.text := rfl

lemma cellJustify_text (c : Cell) : (cellJustify c).text = c.text := by
  simp only [cellJustify, Cell.text, List.map_map]
  congr 1

lemma cellStep_width (pat rep : Text) (j : Bool) (c : Cell) :
    (cellStep pat rep j c).width = c.width := by
  unfold cellStep
  by_cases hc : containsSub c.text pat = true
  · rw [if_pos hc]
    cases j <;> rfl
  · rw [if_neg hc]

lemma cellStep_shade (pat rep : Text) (j : Bool) (c : Cell) :
    (cellStep pat rep j c).shade = c.shade := by
  unfold cellStep
  by_cases hc : containsSub c.text pat = true
  · rw [if_pos hc]
    cases j <;> rfl
  · rw [if_neg hc]

lemma cellStep_text {pat : Text} (hpat : pat ∈ sixMarkers) (rep : Text) (j : Bool)
    {c : Cell} {ts : List Tok} (hts : cleanTs ts) (hs : renderToks ts = c.text) :
    (cellStep pat rep j c).text = renderToks (stepTok pat rep ts) := by
  unfold cellStep
  by_cases h : Tok.mark pat ∈ ts
  · have hc : containsSub c.text pat = true := by
      rw [← hs]; exact (containsSub_renderToks hpat ts hts).mpr h
    rw [if_pos hc]
    have he : replaceList pat rep c.text = renderToks (stepTok pat rep ts) := by
      rw [← hs]; exact replaceList_render pat rep hpat ts hts
    cases j
    · rw [show cond false (cellJustify (c.setText (replaceList pat rep c.text)))
          (c.setText (replaceList pat rep c.text)) =
          c.setText (replaceList pat rep c.text) from rfl]
      rw [cell_text_setText]
      exact he
    · rw [show cond true (cellJustify (c.setText (replaceList pat rep c.text)))
          (c.setText (replaceList pat rep c.text)) =
          cellJustify (c.setText (replaceList pat rep c.text)) from rfl]
      rw [cellJustify_text, cell_text_setText]
      exact he
  · have hc : containsSub c.text pat = false := by
      rw [← hs, containsSub_renderToks_decide hpat ts hts]
      simp [h]
    rw [if_neg (by simp [hc]), stepTok_id pat rep ts h, hs]

lemma cellStep_skip {pat : Text} (hpat : pat ∈ sixMarkers) (rep : Text) (j : Bool)
    {c : Cell} {ts : List Tok} (hts : cleanTs ts) (hs : renderToks ts = c.text)
    (h : Tok.mark pat ∉ ts) : cellStep pat rep j c = c := by
  unfold cellStep
  have hc : containsSub c.text pat = false := by
    rw [← hs, containsSub_renderToks_decide hpat ts hts]
    simp [h]
  rw [if_neg (by simp [hc])]

lemma cellStep_touch {pat : Text} (hpat : pat ∈ sixMarkers) (rep : Text) (j : Bool)
    {c : Cell} {ts : List Tok} (hts : cleanTs ts) (hs : renderToks ts = c.text)
    (h : Tok.mark pat ∈ ts) :
    (cellStep pat rep j c).paras =
      [{ runs := [{ text := (cellStep pat rep j c).text, bold := false }],
         align := cond j Align.justify Align.none }] := by
  have htext := cellStep_text hpat rep j hts hs
  unfold cellStep at htext ⊢
  have hc : containsSub c.text pat = true := by
    rw [← hs]; exact (containsSub_renderToks hpat ts hts).mpr h
  rw [if_pos hc] at htext ⊢
  cases j
  · simp only [cond] at htext ⊢
    rw [htext]
    have he : renderToks (stepTok pat rep ts) = replaceList pat rep c.text := by
      rw [← hs]; exact (replaceList_render pat rep hpat ts hts).symm
    rw [he]
    rfl
  · simp only [cond] at htext ⊢
    rw [htext]
    have he : renderToks (stepTok pat rep ts) = replaceList pat rep c.text := by
      rw [← hs]; exact (replaceList_render pat rep hpat ts hts).symm
    rw [he]
    rfl

lemma cell_eq_mk {q : Cell} {P : List Para} {w : Option Nat} {sh : Option Text}
    (h1 : q.paras = P) (h2 : q.width = w) (h3 : q.shade = sh) :
    q = { paras := P, width := w, shade := sh } := by
  cases q
  cases h1
  cases h2
  cases h3
  rfl

set_option maxHeartbeats 1000000 in
/-- Full description of the third pass on one cell with clean text: the
guard fires exactly when one of the four text markers occurs in the
cell text; then the whole cell collapses to one fresh paragraph
holding the substituted text, whose alignment is decided by the last
branch that rewrote the cell: `{conclusions}`/`{recommendations}`
justify, otherwise `{month}` resets the cell to the default alignment
(assigning `cell.text` replaces the cell paragraphs), otherwise the
`{activities}` branch justifies. -/
lemma cellSubst_spec (a : Args) (hA : ValsOk a) (c : Cell) (ts : List Tok)
    (hts : cleanTs ts) (hs : renderToks ts = c.text) :
    cellSubst a c =
      if Tok.mark activitiesM ∈ ts ∨ Tok.mark monthM ∈ ts ∨ Tok.mark conclusionsM ∈ ts
          ∨ Tok.mark recommendationsM ∈ ts then
        ({ paras := [{ runs := [{ text := renderToks (substToks a ts), bold := false }],
                       align := if Tok.mark conclusionsM ∈ ts
                           ∨ Tok.mark recommendationsM ∈ ts then Align.justify
                         else if Tok.mark monthM ∈ ts then Align.none
                         else Align.justify }],
           width := c.width, shade := c.shade }, true)
      else (c, false) := by
  obtain ⟨hA1, hA2, hA3, hA4⟩ := hA
  have hc1 : cleanTs (stepTok activitiesM a.activities ts) := stepTok_clean hA1 hts
  have hc2 : cleanTs (stepTok monthM a.month (stepTok activitiesM a.activities ts)) :=
    stepTok_clean hA2 hc1
  have hc3 : cleanTs (stepTok conclusionsM a.conclusiones
      (stepTok monthM a.month (stepTok activitiesM a.activities ts))) :=
    stepTok_clean hA3 hc2
  have ht1 := cellStep_text actM_mem a.activities true hts hs
  have ht2 := cellStep_text monM_mem a.month false hc1 ht1.symm
  have ht3 := cellStep_text conM_mem a.conclusiones true hc2 ht2.symm
  have ht4 := cellStep_text recM_mem a.recommendations true hc3 ht3.symm
  have hmon1 : (Tok.mark monthM ∈ stepTok activitiesM a.activities ts) ↔
      Tok.mark monthM ∈ ts := stepTok_mark_ne _ (by decide)
  have hcon2 : (Tok.mark conclusionsM ∈ stepTok monthM a.month
      (stepTok activitiesM a.activities ts)) ↔ Tok.mark conclusionsM ∈ ts :=
    (stepTok_mark_ne _ (by decide)).trans (stepTok_mark_ne _ (by decide))
  have hrec3 : (Tok.mark recommendationsM ∈ stepTok conclusionsM a.conclusiones
      (stepTok monthM a.month (stepTok activitiesM a.activities ts))) ↔
      Tok.mark recommendationsM ∈ ts :=
    (stepTok_mark_ne _ (by decide)).trans ((stepTok_mark_ne _ (by decide)).trans
      (stepTok_mark_ne _ (by decide)))
  have hguard : (textMarks.any (fun x => containsSub c.text x)) =
      decide (Tok.mark activitiesM ∈ ts ∨ Tok.mark monthM ∈ ts
        ∨ Tok.mark conclusionsM ∈ ts ∨ Tok.mark recommendationsM ∈ ts) := by
    have e1 : containsSub c.text activitiesM = decide (Tok.mark activitiesM ∈ ts) := by
      rw [← hs]; exact containsSub_renderToks_decide actM_mem ts hts
    have e2 : containsSub c.text monthM = decide (Tok.mark monthM ∈ ts) := by
      rw [← hs]; exact containsSub_renderToks_decide monM_mem ts hts
    have e3 : containsSub c.text conclusionsM = decide (Tok.mark conclusionsM ∈ ts) := by
      rw [← hs]; exact containsSub_renderToks_decide conM_mem ts hts
    have e4 : containsSub c.text recommendationsM =
        decide (Tok.mark recommendationsM ∈ ts) := by
      rw [← hs]; exact containsSub_renderToks_decide recM_mem ts hts
    by_cases h1 : Tok.mark activitiesM ∈ ts <;>
      by_cases h2m : Tok.mark monthM ∈ ts <;>
        by_cases h3 : Tok.mark conclusionsM ∈ ts <;>
          by_cases h4 : Tok.mark recommendationsM ∈ ts <;>
            simp [textMarks, e1, e2, e3, e4, h1, h2m, h3, h4]
  rw [cellSubst_branches]
  by_cases hg : Tok.mark activitiesM ∈ ts ∨ Tok.mark monthM ∈ ts
      ∨ Tok.mark conclusionsM ∈ ts ∨ Tok.mark recommendationsM ∈ ts
  · rw [if_pos (by rw [hguard]; simp [hg]), if_pos hg]
    refine congrArg (fun q => (q, true)) (cell_eq_mk ?_ ?_ ?_)
    · by_cases h4 : Tok.mark recommendationsM ∈ ts
      · have e4 := cellStep_touch recM_mem a.recommendations true hc3 ht3.symm
          (hrec3.mpr h4)
        rw [e4, ht4]
        simp [h4, substToks]
      · have e4skip := cellStep_skip recM_mem a.recommendations true hc3 ht3.symm
          (fun hmem => h4 (hrec3.mp hmem))
        rw [e4skip] at ht4 ⊢
        by_cases h3 : Tok.mark conclusionsM ∈ ts
        · have e3 := cellStep_touch conM_mem a.conclusiones true hc2 ht2.symm
            (hcon2.mpr h3)
          rw [e3, ht4]
          simp [h3, h4, substToks]
        · have e3skip := cellStep_skip conM_mem a.conclusiones true hc2 ht2.symm
            (fun hmem => h3 (hcon2.mp hmem))
          rw [e3skip] at ht4 ⊢
          by_cases h2m : Tok.mark monthM ∈ ts
          · have e2 := cellStep_touch monM_mem a.month false hc1 ht1.symm
              (hmon1.mpr h2m)
            rw [e2, ht4]
            simp [h2m, h3, h4, substToks]
          · have e2skip := cellStep_skip monM_mem a.month false hc1 ht1.symm
              (fun hmem => h2m (hmon1.mp hmem))
            rw [e2skip] at ht4 ⊢
            have h1 : Tok.mark activitiesM ∈ ts := by
              rcases hg with h | h | h | h
              · exact h
              · exact absurd h h2m
              · exact absurd h h3
              · exact absurd h h4
            have e1 := cellStep_touch actM_mem a.activities true hts hs h1
            rw [e1, ht4]
            simp [h2m, h3, h4, substToks]
    · rw [cellStep_width, cellStep_width, cellStep_width, cellStep_width]
    · rw [cellStep_shade, cellStep_shade, cellStep_shade, cellStep_shade]
  · rw [if_neg (by rw [hguard]; simp [hg]), if_neg hg]

/-! ### Per-block description of the whole fill -/

lemma paraSubst_anchor (a : Args) : paraSubst a anchorPara = (anchorPara, false) := by
  have h1 : containsSub anchorPara.text activitiesM = false := by decide
  have h2 : containsSub anchorPara.text monthM = false := by decide
  have h3 : containsSub anchorPara.text conclusionsM = false := by decide
  have h4 : containsSub anchorPara.text recommendationsM = false := by decide
  simp [paraSubst, textMarks, h1, h2, h3, h4]

/-- Image of one top-level block under the three passes of the fill: a
paragraph holding a table marker becomes the anchor paragraph and the
generated table — which is itself processed by the cell pass — while
other paragraphs go through the paragraph pass and existing tables
through the cell pass. -/
def fillBlock (styles : List Text) (a : Args) : Block → List Block
  | Block.para p =>
    if containsSub p.text titleM || containsSub p.text descM then
      if containsSub p.text titleM then
        [Block.para anchorPara,
         Block.table (tableSubst a (buildTitleTable styles a.title_activities)).1]
      else
        [Block.para anchorPara,
         Block.table (tableSubst a (buildDescTable styles a.description_activities)).1]
    else [Block.para (paraSubst a p).1]
  | Block.table t => [Block.table (tableSubst a t).1]

/-- Blockwise image of the whole fill. -/
def fillBlocks (styles : List Text) (a : Args) : List Block → List Block
  | [] => []
  | b :: bs => fillBlock styles a b ++ fillBlocks styles a bs

lemma paraMarksPass_append (a : Args) (xs ys : List Block) :
    (paraMarksPass a (xs ++ ys)).1 = (paraMarksPass a xs).1 ++ (paraMarksPass a ys).1 := by
  induction xs with
  | nil => rfl
  | cons b bs ih =>
    cases b with
    | para p => simp [paraMarksPass, ih]
    | table t => simp [paraMarksPass, ih]

lemma cellMarksPass_append (a : Args) (xs ys : List Block) :
    (cellMarksPass a (xs ++ ys)).1 = (cellMarksPass a xs).1 ++ (cellMarksPass a ys).1 := by
  induction xs with
  | nil => rfl
  | cons b bs ih =>
    cases b with
    | para p => simp [cellMarksPass, ih]
    | table t => simp [cellMarksPass, ih]

/-- The three passes compose to the blockwise image. -/
lemma applyFill_blocks (styles : List Text) (a : Args) (bs : List Block) :
    (applyFill styles a bs).1 = fillBlocks styles a bs := by
  induction bs with
  | nil => rfl
  | cons b bs ih =>
    have ih' : (cellMarksPass a (paraMarksPass a
        (tableMarksPass styles a.title_activities a.description_activities bs).1).1).1 =
        fillBlocks styles a bs := ih
    cases b with
    | table t =>
      show (cellMarksPass a (paraMarksPass a
        (tableMarksPass styles a.title_activities a.description_activities
          (Block.table t :: bs)).1).1).1 = _
      simp only [tableMarksPass, paraMarksPass, cellMarksPass]
      rw [ih']
      rfl
    | para p =>
      show (cellMarksPass a (paraMarksPass a
        (tableMarksPass styles a.title_activities a.description_activities
          (Block.para p :: bs)).1).1).1 = _
      by_cases hT : containsSub p.text titleM = true
      · simp only [tableMarksPass, hT, Bool.true_or, if_pos, paraMarksPass,
          paraSubst_anchor, cellMarksPass]
        rw [ih']
        simp [fillBlocks, fillBlock, hT]
      · by_cases hD : containsSub p.text descM = true
        · simp only [tableMarksPass, hT, hD, Bool.false_or, if_pos, paraMarksPass,
            paraSubst_anchor, cellMarksPass]
          rw [ih']
          simp [fillBlocks, fillBlock, hT, hD]
        · simp only [tableMarksPass, hT, hD, Bool.false_or, if_neg, paraMarksPass,
            cellMarksPass]
          rw [ih']
          simp [fillBlocks, fillBlock, hT, hD]

lemma fillBlocks_mem {styles : List Text} {a : Args} {b' : Block} :
    ∀ {bs : List Block}, b' ∈ fillBlocks styles a bs →
      ∃ b ∈ bs, b' ∈ fillBlock styles a b := by
  intro bs
  induction bs with
  | nil => intro h; simp [fillBlocks] at h
  | cons b bs ih =>
    intro h
    rcases List.mem_append.mp h with h | h
    · exact ⟨b, by simp, h⟩
    · obtain ⟨b0, hb0, hb0'⟩ := ih h
      exact ⟨b0, by simp [hb0], hb0'⟩

lemma fillBlocks_mem_of {styles : List Text} {a : Args} {b b' : Block} :
    ∀ {bs : List Block}, b ∈ bs → b' ∈ fillBlock styles a b →
      b' ∈ fillBlocks styles a bs := by
  intro bs
  induction bs with
  | nil => intro h; simp at h
  | cons b0 bs ih =>
    intro h h'
    rcases List.mem_cons.mp h with h | h
    · subst h
      exact List.mem_append_left _ h'
    · exact List.mem_append_right _ (ih h h')

lemma docParas_mem {d : Doc} {p : Para} : p ∈ docParas d ↔ Block.para p ∈ d.blocks := by
  unfold docParas
  rw [List.mem_filterMap]
  constructor
  · rintro ⟨b, hb, he⟩
    cases b with
    | para p0 =>
      simp only [Option.some.injEq] at he
      exact he ▸ hb
    | table t => simp at he
  · intro h
    exact ⟨Block.para p, h, rfl⟩

lemma docCells_mem {d : Doc} {c : Cell} (h : c ∈ docCells d) :
    ∃ t row, Block.table t ∈ d.blocks ∧ row ∈ t.rows ∧ c ∈ row := by
  unfold docCells at h
  rw [List.mem_flatten] at h
  obtain ⟨row, hrow, hc⟩ := h
  rw [List.mem_flatten] at hrow
  obtain ⟨rows, hrows, hrow'⟩ := hrow
  rw [List.mem_map] at hrows
  obtain ⟨t, ht, rfl⟩ := hrows
  unfold docTables at ht
  rw [List.mem_filterMap] at ht
  obtain ⟨b, hb, he⟩ := ht
  cases b with
  | para p => simp at he
  | table t0 =>
    simp only [Option.some.injEq] at he
    refine ⟨t, row, ?_, hrow', hc⟩
    rw [← he]
    exact hb

lemma rowSubst_fst (a : Args) (cs : List Cell) :
    (rowSubst a cs).1 = cs.map (fun c => (cellSubst a c).1) := by
  induction cs with
  | nil => rfl
  | cons c cs ih => simp [rowSubst, ih]

lemma rowsSubst_fst (a : Args) (rows : List (List Cell)) :
    (rowsSubst a rows).1 = rows.map (fun r => (rowSubst a r).1) := by
  induction rows with
  | nil => rfl
  | cons r rows ih => simp [rowsSubst, ih]

lemma tableSubst_cells {a : Args} {t : Table} {row' : List Cell} {c' : Cell}
    (hrow : row' ∈ (tableSubst a t).1.rows) (hc : c' ∈ row') :
    ∃ row ∈ t.rows, ∃ c ∈ row, c' = (cellSubst a c).1 := by
  have : (tableSubst a t).1.rows = t.rows.map (fun r => (rowSubst a r).1) := by
    simp [tableSubst, rowsSubst_fst]
  rw [this] at hrow
  obtain ⟨row, hrowm, rfl⟩ := List.mem_map.mp hrow
  rw [rowSubst_fst] at hc
  obtain ⟨c, hcm, rfl⟩ := List.mem_map.mp hc
  exact ⟨row, hrowm, c, hcm, rfl⟩

/-! ### Cleanliness of documents and arguments -/

/-- All texts of a block are clean. -/
def BlockClean : Block → Prop
  | Block.para p => TextClean p.text
  | Block.table t => ∀ row ∈ t.rows, ∀ c ∈ row, TextClean c.text

/-- All texts of a document are clean. -/
def DocClean (d : Doc) : Prop := ∀ b ∈ d.blocks, BlockClean b

/-- All fields of the structured row arguments are clean. -/
def RowsClean (a : Args) : Prop :=
  (∀ r ∈ a.title_activities, TextClean r.actividad ∧ TextClean r.mes) ∧
  (∀ r ∈ a.description_activities,
    TextClean r.actividad ∧ TextClean r.descripcion ∧ TextClean r.verificador)

/-- Holds when `s` contains none of the four plain-text markers. -/
def noFourText (s : Text) : Bool := textMarks.all (fun m => !containsSub s m)

lemma noSixText_intro {s : Text} (h : ∀ m ∈ sixMarkers, containsSub s m = false) :
    noSixText s = true :=
  List.all_eq_true.mpr (fun m hm => by simp [h m hm])

lemma noFourText_intro {s : Text} (h : ∀ m ∈ textMarks, containsSub s m = false) :
    noFourText s = true :=
  List.all_eq_true.mpr (fun m hm => by simp [h m hm])

lemma substituted_noFour {a : Args} {ts : List Tok} (hA : ValsOk a) (hts : cleanTs ts) :
    ∀ q ∈ textMarks, containsSub (renderToks (substToks a ts)) q = false := by
  intro q hq
  have hq6 : q ∈ sixMarkers := by
    have hsub : ∀ x ∈ textMarks, x ∈ sixMarkers := by decide
    exact hsub q hq
  rw [containsSub_renderToks_decide hq6 _ (substToks_clean hA hts)]
  simp only [decide_eq_false_iff_not]
  intro hmem
  obtain ⟨_, hne1, hne2, hne3, hne4⟩ := (substToks_mark_iff a q ts).mp hmem
  simp only [textMarks, List.mem_cons, List.mem_singleton] at hq
  rcases hq with rfl | rfl | rfl | hq
  · exact hne1 rfl
  · exact hne2 rfl
  · exact hne3 rfl
  · simp at hq
    exact hne4 hq

lemma substituted_noSix {a : Args} {ts : List Tok} (hA : ValsOk a) (hts : cleanTs ts)
    (hT : Tok.mark titleM ∉ ts) (hD : Tok.mark descM ∉ ts) :
    ∀ q ∈ sixMarkers, containsSub (renderToks (substToks a ts)) q = false := by
  intro q hq6
  rw [containsSub_renderToks_decide hq6 _ (substToks_clean hA hts)]
  simp only [decide_eq_false_iff_not]
  intro hmem
  obtain ⟨hmem', hne1, hne2, hne3, hne4⟩ := (substToks_mark_iff a q ts).mp hmem
  have hTD : q = titleM ∨ q = descM := by
    simp only [sixMarkers, List.mem_cons, List.mem_singleton] at hq6
    rcases hq6 with rfl | rfl | rfl | rfl | rfl | hq6
    · exact absurd rfl hne1
    · exact absurd rfl hne2
    · exact absurd rfl hne3
    · exact absurd rfl hne4
    · exact Or.inl rfl
    · simp at hq6
      exact Or.inr hq6
  rcases hTD with rfl | rfl
  · exact hT hmem'
  · exact hD hmem'

lemma bool_not_true {b : Bool} (h : ¬ b = true) : b = false := by
  cases b
  · rfl
  · exact absurd rfl h

lemma noFour_of_marks_absent {ts : List Tok} (hts : cleanTs ts) {s : Text}
    (hrender : renderToks ts = s)
    (h1 : Tok.mark activitiesM ∉ ts) (h2 : Tok.mark monthM ∉ ts)
    (h3 : Tok.mark conclusionsM ∉ ts) (h4 : Tok.mark recommendationsM ∉ ts) :
    noFourText s = true := by
  apply noFourText_intro
  intro m hm
  rw [← hrender]
  simp only [textMarks, List.mem_cons, List.mem_singleton, List.not_mem_nil,
    or_false] at hm
  rcases hm with rfl | rfl | rfl | rfl
  · rw [containsSub_renderToks_decide actM_mem ts hts]; simp [h1]
  · rw [containsSub_renderToks_decide monM_mem ts hts]; simp [h2]
  · rw [containsSub_renderToks_decide conM_mem ts hts]; simp [h3]
  · rw [containsSub_renderToks_decide recM_mem ts hts]; simp [h4]

lemma noSix_of_marks_absent {ts : List Tok} (hts : cleanTs ts) {s : Text}
    (hrender : renderToks ts = s)
    (h1 : Tok.mark activitiesM ∉ ts) (h2 : Tok.mark monthM ∉ ts)
    (h3 : Tok.mark conclusionsM ∉ ts) (h4 : Tok.mark recommendationsM ∉ ts)
    (h5 : Tok.mark titleM ∉ ts) (h6 : Tok.mark descM ∉ ts) :
    noSixText s = true := by
  apply noSixText_intro
  intro m hm
  rw [← hrender]
  simp only [sixMarkers, List.mem_cons, List.mem_singleton, List.not_mem_nil,
    or_false] at hm
  rcases hm with rfl | rfl | rfl | rfl | rfl | rfl
  · rw [containsSub_renderToks_decide actM_mem ts hts]; simp [h1]
  · rw [containsSub_renderToks_decide monM_mem ts hts]; simp [h2]
  · rw [containsSub_renderToks_decide conM_mem ts hts]; simp [h3]
  · rw [containsSub_renderToks_decide recM_mem ts hts]; simp [h4]
  · rw [containsSub_renderToks_decide titleM_mem ts hts]; simp [h5]
  · rw [containsSub_renderToks_decide descM_mem ts hts]; simp [h6]

/-- The cell pass leaves no plain-text marker in a clean cell. -/
lemma cellSubst_noFour {a : Args} (hA : ValsOk a) {c : Cell} (hc : TextClean c.text) :
    noFourText ((cellSubst a c).1).text = true := by
  obtain ⟨ts, hts, hrender⟩ := hc
  by_cases hfour : Tok.mark activitiesM ∈ ts ∨ Tok.mark monthM ∈ ts
      ∨ Tok.mark conclusionsM ∈ ts ∨ Tok.mark recommendationsM ∈ ts
  · have hspec := cellSubst_spec a hA c ts hts hrender
    rw [if_pos hfour] at hspec
    have htext : ((cellSubst a c).1).text = renderToks (substToks a ts) := by
      rw [hspec]
      simp [Cell.text, joinNL, Para.text]
    apply noFourText_intro
    intro m hm
    rw [htext]
    exact substituted_noFour hA hts m hm
  · have hspec := cellSubst_spec a hA c ts hts hrender
    rw [if_neg hfour] at hspec
    have hcc : (cellSubst a c).1 = c := by rw [hspec]
    rw [hcc]
    push_neg at hfour
    exact noFour_of_marks_absent hts hrender hfour.1 hfour.2.1 hfour.2.2.1 hfour.2.2.2

/-- The paragraph pass leaves no marker at all in a clean paragraph
that holds no table marker. -/
lemma paraSubst_noSix {a : Args} (hA : ValsOk a) {p0 : Para} (hclean : TextClean p0.text)
    (hT : containsSub p0.text titleM = false) (hDm : containsSub p0.text descM = false) :
    noSixText ((paraSubst a p0).1).text = true := by
  obtain ⟨ts, hts, hrender⟩ := hclean
  have hTm : Tok.mark titleM ∉ ts := fun hmem => by
    have h := (containsSub_renderToks titleM_mem ts hts).mpr hmem
    rw [hrender, hT] at h
    exact absurd h (by simp)
  have hDm' : Tok.mark descM ∉ ts := fun hmem => by
    have h := (containsSub_renderToks descM_mem ts hts).mpr hmem
    rw [hrender, hDm] at h
    exact absurd h (by simp)
  by_cases hfour : Tok.mark activitiesM ∈ ts ∨ Tok.mark monthM ∈ ts
      ∨ Tok.mark conclusionsM ∈ ts ∨ Tok.mark recommendationsM ∈ ts
  · have hspec := paraSubst_spec a hA p0 ts hts hrender
    rw [if_pos hfour] at hspec
    have htext : ((paraSubst a p0).1).text = renderToks (substToks a ts) := by
      rw [hspec]
      simp [Para.text]
    apply noSixText_intro
    intro m hm
    rw [htext]
    exact substituted_noSix hA hts hTm hDm' m hm
  · have hspec := paraSubst_spec a hA p0 ts hts hrender
    rw [if_neg hfour] at hspec
    have hpp : (paraSubst a p0).1 = p0 := by rw [hspec]
    rw [hpp]
    push_neg at hfour
    exact noSix_of_marks_absent hts hrender hfour.1 hfour.2.1 hfour.2.2.1 hfour.2.2.2
      hTm hDm'

lemma buildTitleTable_clean {a : Args} (hR : RowsClean a) (styles : List Text) :
    ∀ row ∈ (buildTitleTable styles a.title_activities).rows, ∀ c ∈ row,
      TextClean c.text := by
  intro row hrow c hc
  rw [buildTitleTable_rows] at hrow
  rcases List.mem_cons.mp hrow with h | h
  · subst h
    rcases List.mem_cons.mp hc with h | h
    · subst h
      rw [headerCell_text]
      exact textClean_of_noBrace (by decide)
    · have h' := List.mem_singleton.mp h
      subst h'
      rw [headerCell_text]
      exact textClean_of_noBrace (by decide)
  · obtain ⟨r, hr, rfl⟩ := List.mem_map.mp h
    rcases List.mem_cons.mp hc with h | h
    · subst h
      rw [dataCell_text]
      exact (hR.1 r hr).1
    · have h' := List.mem_singleton.mp h
      subst h'
      rw [dataCell_text]
      exact (hR.1 r hr).2

lemma buildDescTable_clean {a : Args} (hR : RowsClean a) (styles : List Text) :
    ∀ row ∈ (buildDescTable styles a.description_activities).rows, ∀ c ∈ row,
      TextClean c.text := by
  intro row hrow c hc
  rw [buildDescTable_rows] at hrow
  rcases List.mem_cons.mp hrow with h | h
  · subst h
    rcases List.mem_cons.mp hc with h | h
    · subst h
      rw [headerCell_text]
      exact textClean_of_noBrace (by decide)
    · rcases List.mem_cons.mp h with h | h
      · subst h
        rw [headerCell_text]
        exact textClean_of_noBrace (by decide)
      · have h' := List.mem_singleton.mp h
        subst h'
        rw [headerCell_text]
        exact textClean_of_noBrace (by decide)
  · obtain ⟨r, hr, rfl⟩ := List.mem_map.mp h
    rcases List.mem_cons.mp hc with h | h
    · subst h
      rw [dataCell_text]
      exact (hR.2 r hr).1
    · rcases List.mem_cons.mp h with h | h
      · subst h
        rw [dataCell_text]
        exact (hR.2 r hr).2.1
      · have h' := List.mem_singleton.mp h
        subst h'
        rw [dataCell_text]
        exact (hR.2 r hr).2.2

/-- The saved tree is exactly the three passes applied to the opened
document. -/
lemma gmr_saved_eq {env : Env} {path : Text} {a : Args} {d : Doc}
    (hs : (generate_monthly_report env path a).saved = some d) :
    ∃ doc, env.openDoc = Except.ok doc ∧
      d = { blocks := (applyFill doc.styles a doc.blocks).1, styles := doc.styles } := by
  unfold generate_monthly_report at hs
  by_cases h1 : env.isFile = false
  · rw [if_pos h1] at hs
    simp at hs
  · rw [if_neg h1] at hs
    by_cases h2 : extOf path ∉ [docExt, docxExt]
    · rw [if_pos h2] at hs
      simp at hs
    · rw [if_neg h2] at hs
      cases ho : env.openDoc with
      | error e =>
        rw [ho] at hs
        simp at hs
      | ok doc =>
        rw [ho] at hs
        refine ⟨doc, rfl, ?_⟩
        by_cases hrep : (applyFill doc.styles a doc.blocks).2 = true
        · cases hsv : env.saveErr with
          | some e =>
            rw [hsv] at hs
            simp only [hrep, if_true] at hs
            simp at hs
            exact hs.symm
          | none =>
            rw [hsv] at hs
            simp only [hrep, if_true] at hs
            simp at hs
            exact hs.symm
        · have hrep' : (applyFill doc.styles a doc.blocks).2 = false := bool_not_true hrep
          simp [hrep'] at hs

/-- C1 (corrected, amended).  Under the cleanliness hypotheses —
every paragraph and cell text of the opened document decomposes into
non-brace characters and whole marker occurrences (`DocClean`), every
supplied row field does too (`RowsClean`), and the four replacement
values contain no `{` (`ValsOk`) — a fill call that saves leaves no
occurrence of any of the six markers in the saved document's
paragraph texts, and no occurrence of the four plain-text markers in
its table-cell texts.  The original claim is false for the two table
markers located inside table cells (see the counterexample): the cell
pass substitutes only the four plain-text markers, so
`{titleActivities}` / `{descriptionActivities}` occurrences inside
cells are never replaced and remain. -/
theorem C1_amended (env : Env) (path : Text) (a : Args) (doc : Doc) (d : Doc)
    (hA : ValsOk a) (hR : RowsClean a) (hD : DocClean doc)
    (hopen : env.openDoc = Except.ok doc)
    (hsave : (generate_monthly_report env path a).saved = some d) :
    (∀ p ∈ docParas d, noSixText p.text = true) ∧
    (∀ c ∈ docCells d, noFourText c.text = true) := by
  obtain ⟨doc', hopen', hd⟩ := gmr_saved_eq hsave
  rw [hopen] at hopen'
  injection hopen' with hdoc
  subst hdoc
  subst hd
  constructor
  · intro p hp
    rw [docParas_mem] at hp
    rw [applyFill_blocks] at hp
    obtain ⟨b, hb, hpb⟩ := fillBlocks_mem hp
    cases b with
    | table t =>
      exfalso
      simp [fillBlock] at hpb
    | para p0 =>
      by_cases hT : containsSub p0.text titleM = true
      · have hmem2 : Block.para p ∈ [Block.para anchorPara,
            Block.table (tableSubst a (buildTitleTable doc.styles a.title_activities)).1] := by
          simpa [fillBlock, hT] using hpb
        have hpa : p = anchorPara := by
          rcases List.mem_cons.mp hmem2 with h | h
          · injection h with h
          · have h' := List.mem_singleton.mp h
            exact absurd h' (by simp)
        subst hpa
        decide
      · by_cases hDm : containsSub p0.text descM = true
        · have hmem2 : Block.para p ∈ [Block.para anchorPara,
              Block.table (tableSubst a
                (buildDescTable doc.styles a.description_activities)).1] := by
            simpa [fillBlock, hT, hDm] using hpb
          have hpa : p = anchorPara := by
            rcases List.mem_cons.mp hmem2 with h | h
            · injection h with h
            · have h' := List.mem_singleton.mp h
              exact absurd h' (by simp)
          subst hpa
          decide
        · have hpb' : p = (paraSubst a p0).1 := by
            have hmem1 : Block.para p ∈ [Block.para (paraSubst a p0).1] := by
              simpa [fillBlock, hT, hDm] using hpb
            have h := List.mem_singleton.mp hmem1
            injection h with h
          rw [hpb']
          exact paraSubst_noSix hA (hD _ hb) (bool_not_true hT) (bool_not_true hDm)
  · intro c hc
    obtain ⟨t, row, htb, hrow, hcrow⟩ := docCells_mem hc
    rw [applyFill_blocks] at htb
    obtain ⟨b, hb, htb'⟩ := fillBlocks_mem htb
    cases b with
    | table t0 =>
      have ht : t = (tableSubst a t0).1 := by
        have hmem1 : Block.table t ∈ [Block.table (tableSubst a t0).1] := by
          simpa [fillBlock] using htb'
        have h := List.mem_singleton.mp hmem1
        injection h with h
      subst ht
      obtain ⟨row0, hrow0, c0, hc0, rfl⟩ := tableSubst_cells hrow hcrow
      exact cellSubst_noFour hA (hD _ hb row0 hrow0 c0 hc0)
    | para p0 =>
      by_cases hT : containsSub p0.text titleM = true
      · have hmem2 : Block.table t ∈ [Block.para anchorPara,
            Block.table (tableSubst a (buildTitleTable doc.styles a.title_activities)).1] := by
          simpa [fillBlock, hT] using htb'
        have ht : t = (tableSubst a (buildTitleTable doc.styles a.title_activities)).1 := by
          rcases List.mem_cons.mp hmem2 with h | h
          · exact absurd h (by simp)
          · have h' := List.mem_singleton.mp h
            injection h' with h'
        subst ht
        obtain ⟨row0, hrow0, c0, hc0, rfl⟩ := tableSubst_cells hrow hcrow
        exact cellSubst_noFour hA (buildTitleTable_clean hR doc.styles row0 hrow0 c0 hc0)
      · by_cases hDm : containsSub p0.text descM = true
        · have hmem2 : Block.table t ∈ [Block.para anchorPara,
              Block.table (tableSubst a
                (buildDescTable doc.styles a.description_activities)).1] := by
            simpa [fillBlock, hT, hDm] using htb'
          have ht : t = (tableSubst a
              (buildDescTable doc.styles a.description_activities)).1 := by
            rcases List.mem_cons.mp hmem2 with h | h
            · exact absurd h (by simp)
            · have h' := List.mem_singleton.mp h
              injection h' with h'
          subst ht
          obtain ⟨row0, hrow0, c0, hc0, rfl⟩ := tableSubst_cells hrow hcrow
          exact cellSubst_noFour hA (buildDescTable_clean hR doc.styles row0 hrow0 c0 hc0)
        · exfalso
          have hmem1 : Block.table t ∈ [Block.para (paraSubst a p0).1] := by
            simpa [fillBlock, hT, hDm] using htb'
          have h := List.mem_singleton.mp hmem1
          exact absurd h (by simp)

/-- C1 witness document: one `{month}` paragraph. -/
def c1wdoc : Doc :=
  { blocks := [Block.para (mkPara [mkRun ("{month}".toList) false] Align.left)], styles := [] }

/-- C1 witness environment. -/
def c1wenv : Env := { isFile := true, openDoc := Except.ok c1wdoc, saveErr := none }

/-- C1 witness arguments. -/
def c1wargs : Args := ⟨"MARZO".toList, [], [], [], [], []⟩

/-- The document the C1 witness fill saves. -/
def c1wsaved : Doc :=
  { blocks := [Block.para (mkPara [mkRun ("MARZO".toList) false] Align.left)], styles := [] }

/-- Witness for the amended C1 at a concrete input. -/
theorem C1_witness :
    (∀ p ∈ docParas c1wsaved, noSixText p.text = true) ∧
    (∀ c ∈ docCells c1wsaved, noFourText c.text = true) :=
  C1_amended c1wenv ("r.docx".toList) c1wargs c1wdoc c1wsaved (by decide)
    ⟨fun r hr => absurd hr (List.not_mem_nil r), fun r hr => absurd hr (List.not_mem_nil r)⟩
    (fun b hb => by
      simp only [c1wdoc, List.mem_singleton] at hb
      subst hb
      exact ⟨[Tok.mark monthM], by decide, rfl⟩)
    rfl (by decide)

/-- C3 (corrected, amended).  Whole blocks in which no marker
occurs are carried unchanged into the saved document (frame part);
and a paragraph with clean text containing a plain-text marker (and
no table marker) appears in the saved document with all its
non-marker characters preserved in order but with its runs merged
into a single unformatted run — its run-level formatting is lost,
contrary to the original claim (`C3_counterexample`). -/
theorem C3_amended (env : Env) (path : Text) (a : Args) (doc : Doc) (d : Doc)
    (hA : ValsOk a)
    (hopen : env.openDoc = Except.ok doc)
    (hsave : (generate_monthly_report env path a).saved = some d) :
    (∀ b ∈ doc.blocks, blockNoSix b = true → b ∈ d.blocks) ∧
    (∀ (p : Para) (ts : List Tok), Block.para p ∈ doc.blocks → cleanTs ts →
      renderToks ts = p.text →
      containsSub p.text titleM = false → containsSub p.text descM = false →
      (Tok.mark activitiesM ∈ ts ∨ Tok.mark monthM ∈ ts ∨ Tok.mark conclusionsM ∈ ts
        ∨ Tok.mark recommendationsM ∈ ts) →
      Block.para { runs := [{ text := renderToks (substToks a ts), bold := false }],
                   align := if Tok.mark activitiesM ∈ ts ∨ Tok.mark conclusionsM ∈ ts
                       ∨ Tok.mark recommendationsM ∈ ts then Align.justify
                     else p.align } ∈ d.blocks) := by
  obtain ⟨doc', hopen', hd⟩ := gmr_saved_eq hsave
  rw [hopen] at hopen'
  injection hopen' with hdoc
  subst hdoc
  subst hd
  constructor
  · intro b hb hnone
    rw [applyFill_blocks]
    apply fillBlocks_mem_of hb
    cases b with
    | para p =>
      have hnos : noSixText p.text = true := hnone
      have h1 := noSixText_elim hnos titleM_mem
      have h2 := noSixText_elim hnos descM_mem
      simp [fillBlock, h1, h2, paraSubst_noop a p hnos]
    | table t =>
      have hnos : t.rows.all (fun row => row.all (fun c => noSixText c.text)) = true := hnone
      simp [fillBlock, tableSubst_noop a t hnos]
  · intro p ts hmem hts hrender hT hDm hfour
    rw [applyFill_blocks]
    apply fillBlocks_mem_of hmem
    have hspec := paraSubst_spec a hA p ts hts hrender
    rw [if_pos hfour] at hspec
    simp [fillBlock, hT, hDm, hspec]

/-- The document the C3 witness fill saves. -/
def c3saved : Doc :=
  { blocks := [Block.para (mkPara [mkRun ("Hello March".toList) false] Align.left)],
    styles := [] }

/-- Token decomposition of the C3 paragraph text. -/
def c3ts : List Tok := ("Hello ".toList.map Tok.chr) ++ [Tok.mark monthM]

/-- Witness for the amended C3 at a concrete input. -/
theorem C3_witness :
    Block.para { runs := [{ text := renderToks (substToks c3args c3ts), bold := false }],
                 align := if Tok.mark activitiesM ∈ c3ts ∨ Tok.mark conclusionsM ∈ c3ts
                     ∨ Tok.mark recommendationsM ∈ c3ts then Align.justify
                   else c3para.align } ∈ c3saved.blocks :=
  (C3_amended c3env ("informe.docx".toList) c3args c3doc c3saved (by decide) rfl
      (by decide)).2 c3para c3ts (by decide) (by decide) (by decide) (by decide) (by decide)
    (Or.inr (Or.inl (by decide)))

/-- C4 (corrected, amended).  The three passes act blockwise, and a
paragraph holding `{titleActivities}` is replaced by the anchor and
the generated title table *after the cell pass has been applied to
it*: the four-marker substitution runs over all tables present after
generation, including the newly generated ones, so row values are
inserted verbatim at generation time but are then themselves subject
to marker substitution (`C4_counterexample`), contrary to the
original claim. -/
theorem C4_amended (styles : List Text) (a : Args) (blocks : List Block) :
    (applyFill styles a blocks).1 = fillBlocks styles a blocks
    ∧ (∀ p : Para, containsSub p.text titleM = true →
        fillBlock styles a (Block.para p) =
          [Block.para anchorPara,
           Block.table (tableSubst a (buildTitleTable styles a.title_activities)).1])
    ∧ (∀ p : Para, containsSub p.text titleM = false → containsSub p.text descM = true →
        fillBlock styles a (Block.para p) =
          [Block.para anchorPara,
           Block.table (tableSubst a (buildDescTable styles a.description_activities)).1]) := by
  refine ⟨applyFill_blocks styles a blocks, ?_, ?_⟩
  · intro p h
    simp [fillBlock, h]
  · intro p h1 h2
    simp [fillBlock, h1, h2]

/-- Witness for the amended C4 at a concrete input. -/
theorem C4_witness :
    fillBlock [] c4args (Block.para (mkPara [mkRun ("{titleActivities}".toList) false]
        Align.none)) =
      [Block.para anchorPara,
       Block.table (tableSubst c4args (buildTitleTable [] c4args.title_activities)).1] :=
  (C4_amended [] c4args []).2.1 _ (by decide)

/-- C5 (corrected, amended).  For top-level paragraphs the claim
holds as stated: a clean paragraph containing `{activities}`,
`{conclusions}` or `{recommendations}` ends justified, and one
containing `{month}` but none of those three keeps its prior
alignment.  For table cells, every substitution rewrites the whole
cell, so the *last* branch that fires decides the alignment:
`{conclusions}`/`{recommendations}` leave the cell justified, and
`{activities}` leaves it justified only when `{month}` is absent; a
cell containing `{month}` without `{conclusions}`/`{recommendations}`
ends with the default (reset) alignment — in particular a cell with
`{activities}` and `{month}` is *not* justified
(`C5_counterexample`), and a `{month}`-only cell loses rather than
keeps its prior alignment. -/
theorem C5_amended (a : Args) (hA : ValsOk a) :
    (∀ (p : Para) (ts : List Tok), cleanTs ts → renderToks ts = p.text →
      (Tok.mark activitiesM ∈ ts ∨ Tok.mark conclusionsM ∈ ts
        ∨ Tok.mark recommendationsM ∈ ts) →
      ((paraSubst a p).1).align = Align.justify)
    ∧ (∀ (p : Para) (ts : List Tok), cleanTs ts → renderToks ts = p.text →
      Tok.mark monthM ∈ ts → Tok.mark activitiesM ∉ ts → Tok.mark conclusionsM ∉ ts →
      Tok.mark recommendationsM ∉ ts →
      ((paraSubst a p).1).align = p.align)
    ∧ (∀ (c : Cell) (ts : List Tok), cleanTs ts → renderToks ts = c.text →
      (Tok.mark conclusionsM ∈ ts ∨ Tok.mark recommendationsM ∈ ts) →
      ∀ q ∈ ((cellSubst a c).1).paras, q.align = Align.justify)
    ∧ (∀ (c : Cell) (ts : List Tok), cleanTs ts → renderToks ts = c.text →
      Tok.mark activitiesM ∈ ts → Tok.mark monthM ∉ ts →
      ∀ q ∈ ((cellSubst a c).1).paras, q.align = Align.justify)
    ∧ (∀ (c : Cell) (ts : List Tok), cleanTs ts → renderToks ts = c.text →
      Tok.mark monthM ∈ ts → Tok.mark conclusionsM ∉ ts → Tok.mark recommendationsM ∉ ts →
      ∀ q ∈ ((cellSubst a c).1).paras, q.align = Align.none) := by
  refine ⟨?_, ?_, ?_, ?_, ?_⟩
  · intro p ts hts hr h3
    have hspec := paraSubst_spec a hA p ts hts hr
    rw [if_pos (by tauto)] at hspec
    rw [hspec]
    simp only []
    rcases h3 with h | h | h <;> simp [h]
  · intro p ts hts hr hmon h1 h3 h4
    have hspec := paraSubst_spec a hA p ts hts hr
    rw [if_pos (by tauto)] at hspec
    rw [hspec]
    simp [h1, h3, h4]
  · intro c ts hts hr h34 q hq
    have hspec := cellSubst_spec a hA c ts hts hr
    rw [if_pos (by tauto)] at hspec
    rw [hspec] at hq
    have hq' := List.mem_singleton.mp hq
    subst hq'
    rcases h34 with h | h <;> simp [h]
  · intro c ts hts hr hact hmon q hq
    have hspec := cellSubst_spec a hA c ts hts hr
    rw [if_pos (by tauto)] at hspec
    rw [hspec] at hq
    have hq' := List.mem_singleton.mp hq
    subst hq'
    by_cases h3 : Tok.mark conclusionsM ∈ ts <;>
      by_cases h4 : Tok.mark recommendationsM ∈ ts <;>
        simp [h3, h4, hmon]
  · intro c ts hts hr hmon h3 h4 q hq
    have hspec := cellSubst_spec a hA c ts hts hr
    rw [if_pos (by tauto)] at hspec
    rw [hspec] at hq
    have hq' := List.mem_singleton.mp hq
    subst hq'
    simp [h3, h4, hmon]

/-- C5 witness cell: centered, holding `{conclusions}`. -/
def c5wcell : Cell :=
  plainCell [mkPara [mkRun ("{conclusions}".toList) false] Align.center]

/-- C5 witness arguments. -/
def c5wargs : Args := ⟨[], [], "FIN".toList, [], [], []⟩

/-- Witness for the amended C5 at a concrete input: the single
paragraph of the substituted cell is justified. -/
theorem C5_witness :
    mkPara [mkRun ("FIN".toList) false] Align.justify ∈
      ((cellSubst c5wargs c5wcell).1).paras ∧
    (mkPara [mkRun ("FIN".toList) false] Align.justify).align = Align.justify :=
  ⟨by decide,
   (C5_amended c5wargs (by decide)).2.2.1 c5wcell [Tok.mark conclusionsM] (by decide)
     (by decide) (Or.inl (by decide)) (mkPara [mkRun ("FIN".toList) false] Align.justify)
     (by decide)⟩

end CgregReport
